import Mathlib

/-!
Verification development for the DIY-MOD browser extension
(network interception / marker-based content substitution pipeline).

The TypeScript sources are shallowly embedded as Lean definitions:

* JSON values (results of the host runtime's `JSON.parse`) are modelled by the
  inductive type `Json`; a failed parse is the `none` case of `Option Json`.
  Property access `x.k` / optional chaining `x?.k` is `getField`, assignment
  `x.k = v` is `Json.set`, and JavaScript truthiness is `truthy`.
* Stateful, event-driven code (the fetch/XHR interceptors, the WebSocket
  pending-request table, the deferred-image polling loop, the image-overlay
  DOM manipulation) is modelled by explicit state types with step functions
  folded over a trace of delivered events.

Every definition follows the corresponding TypeScript function; the file name
of the source is given in each doc comment.
-/

namespace DIYMod

/-- JSON values as produced by `JSON.parse`.  Object fields are kept as an
ordered association list, matching JavaScript property-insertion order. -/
inductive Json where
  | null : Json
  | bool (b : Bool) : Json
  | num (n : Int) : Json
  | str (s : String) : Json
  | arr (elts : List Json) : Json
  | obj (fields : List (String × Json)) : Json
deriving Repr

/-- Lookup in an ordered association list (first match wins, as for JS object
property lookup where keys are unique). -/
def lookupAssoc {α : Type} : List (String × α) → String → Option α
  | [], _ => none
  | (k, v) :: rest, key => if k = key then some v else lookupAssoc rest key

/-- JS property assignment on an object's field list: an existing key keeps its
position and gets the new value, a fresh key is appended at the end. -/
def setAssoc {α : Type} : List (String × α) → String → α → List (String × α)
  | [], key, v => [(key, v)]
  | (k, w) :: rest, key, v =>
    if k = key then (key, v) :: rest else (k, w) :: setAssoc rest key v

/-- Remove a key from an association list (JS `Map.delete`). -/
def eraseAssoc {α : Type} : List (String × α) → String → List (String × α)
  | [], _ => []
  | (k, w) :: rest, key =>
    if k = key then rest else (k, w) :: eraseAssoc rest key

/-- Property access `x.k` (and `x?.k`): `none` models JS `undefined`.
Property access on primitives yields `undefined`; on `null`/`undefined` an
optional chain short-circuits to `undefined`, which is also `none` here. -/
def getField : Json → String → Option Json
  | .obj fields, key => lookupAssoc fields key
  | _, _ => none

/-- Indexed access `x[i]`: element access on arrays, property `toString i`
on objects, `undefined` otherwise. -/
def getIndex : Json → Nat → Option Json
  | .arr elts, i => elts.get? i
  | .obj fields, i => lookupAssoc fields (toString i)
  | _, _ => none

/-- Property assignment `x.k = v`.  Assignment targets in the adapter are
always objects; on non-objects the assignment has no observable effect on the
serialized JSON (primitive targets are left unchanged). -/
def Json.set : Json → String → Json → Json
  | .obj fields, key, v => .obj (setAssoc fields key v)
  | j, _, _ => j

/-- JavaScript truthiness of a defined value. -/
def truthy : Json → Bool
  | .null => false
  | .bool b => b
  | .num n => n != 0
  | .str s => s != ""
  | .arr _ => true
  | .obj _ => true

/-- Truthiness of a possibly-`undefined` value. -/
def truthyO : Option Json → Bool
  | some v => truthy v
  | none => false

/-- The JS `a || b` on possibly-undefined values. -/
def jsOr (a b : Option Json) : Option Json :=
  if truthyO a then a else b

/-- True iff `pat` is an initial segment of `s`. -/
def startsWithList (pat s : List Char) : Bool :=
  match pat, s with
  | [], _ => true
  | _ :: _, [] => false
  | a :: as, b :: bs => a = b && startsWithList as bs

/-- True iff `pat` occurs somewhere inside `s`. -/
def hasSubList (pat s : List Char) : Bool :=
  match s with
  | [] => startsWithList pat []
  | _ :: rest => startsWithList pat s || hasSubList pat rest

/-- True iff `needle` occurs as a substring of `haystack` (JS `String.includes`). -/
def jsIncludes (haystack needle : String) : Bool :=
  hasSubList needle.toList haystack.toList

/-! ### Basic lemmas about the object model -/

theorem lookupAssoc_setAssoc_ne {α : Type} (l : List (String × α)) (k k' : String)
    (v : α) (h : k' ≠ k) : lookupAssoc (setAssoc l k v) k' = lookupAssoc l k' := by
  induction l with
  | nil => simp [setAssoc, lookupAssoc, Ne.symm h]
  | cons hd tl ih =>
    obtain ⟨k₀, v₀⟩ := hd
    by_cases hk : k₀ = k
    · subst hk
      simp [setAssoc, lookupAssoc, Ne.symm h]
    · simp [setAssoc, lookupAssoc, hk]
      by_cases hk' : k₀ = k'
      · simp [hk']
      · simp [hk', ih]

theorem getField_set_ne (j : Json) (k k' : String) (v : Json) (h : k' ≠ k) :
    getField (Json.set j k v) k' = getField j k' := by
  cases j <;> simp [Json.set, getField]
  exact lookupAssoc_setAssoc_ne _ _ _ _ h

/-!
## Marker codec

Source: `src/utils/markers.ts` (marker handlers and `processMarkedText`) and
`src/shared/constants.ts` (the `MARKERS` / `CSS_CLASSES` literals).

The three built-in handlers perform a global, non-greedy regex replacement
`START([\s\S]*?)END` (overlay: `START(.*?)\|([\s\S]*?)END`).  Regex
replacement is modelled as the standard left-to-right scan: at every index the
engine attempts a match (which, for these patterns, requires the literal start
marker at that index followed by the shortest completion), replaces it and
continues after the match, otherwise advances one character.
-/

def BLUR_START : String := "__BLUR_START__"

def BLUR_END : String := "__BLUR_END__"

def OVERLAY_START : String := "__OVERLAY_START__"

def OVERLAY_END : String := "__OVERLAY_END__"

def REWRITE_START : String := "__REWRITE_START__"

def REWRITE_END : String := "__REWRITE_END__"

/-- Leftmost occurrence of `pat` in `s`: returns the text before the
occurrence and the text after it. -/
def findSub (pat : List Char) : List Char → Option (List Char × List Char)
  | [] => if startsWithList pat [] then some ([], []) else none
  | c :: cs =>
    if startsWithList pat (c :: cs) then some ([], (c :: cs).drop pat.length)
    else
      match findSub pat cs with
      | some (pre, post) => some (c :: pre, post)
      | none => none

theorem startsWithList_length {pat s : List Char}
    (h : startsWithList pat s = true) : pat.length ≤ s.length := by
  induction pat generalizing s with
  | nil => simp
  | cons a as ih =>
    cases s with
    | nil => simp [startsWithList] at h
    | cons b bs =>
      simp only [startsWithList, Bool.and_eq_true] at h
      simpa using ih h.2

theorem findSub_length {pat s pre post : List Char}
    (h : findSub pat s = some (pre, post)) :
    post.length + pat.length ≤ s.length := by
  induction s generalizing pre with
  | nil =>
    simp only [findSub] at h
    split at h
    · rename_i hs
      obtain ⟨rfl, rfl⟩ : pre = [] ∧ post = [] := by
        simpa using h.symm
      cases pat with
      | nil => simp
      | cons a as => simp [startsWithList] at hs
    · exact absurd h (by simp)
  | cons c cs ih =>
    simp only [findSub] at h
    split at h
    · rename_i hs
      obtain ⟨rfl, hpost⟩ : pre = [] ∧ post = (c :: cs).drop pat.length := by
        constructor
        · simpa using congrArg (fun p => (Option.map Prod.fst p).getD []) h.symm
        · simpa using congrArg (fun p => (Option.map Prod.snd p).getD []) h.symm
      have hlen := startsWithList_length hs
      subst hpost
      simp only [List.length_drop, List.length_cons] at hlen ⊢
      omega
    · cases hrec : findSub pat cs with
      | none => rw [hrec] at h; exact absurd h (by simp)
      | some pr =>
        obtain ⟨pre₀, post₀⟩ := pr
        rw [hrec] at h
        obtain ⟨rfl, rfl⟩ : pre = c :: pre₀ ∧ post = post₀ := by
          constructor
          · simpa using congrArg (fun p => (Option.map Prod.fst p).getD []) h.symm
          · simpa using congrArg (fun p => (Option.map Prod.snd p).getD []) h.symm
        have := ih hrec
        simp only [List.length_cons]
        omega

/-- One match attempt of `START([\s\S]*?)END` at the head of `s`: on success
returns the (lazy, hence first-end-delimited) content and the rest of the
input after the match.  A match requires a nonempty start marker. -/
def tryPairAt (startM endM s : List Char) : Option (List Char × List Char) :=
  match startM with
  | [] => none
  | _ :: _ =>
    if startsWithList startM s then
      match findSub endM (s.drop startM.length) with
      | some (content, rest) => some (content, rest)
      | none => none
    else none

theorem tryPairAt_length {startM endM s content rest : List Char}
    (h : tryPairAt startM endM s = some (content, rest)) :
    rest.length < s.length := by
  cases startM with
  | nil => simp [tryPairAt] at h
  | cons a as =>
    simp only [tryPairAt] at h
    split at h
    · rename_i hs
      cases hfind : findSub endM (s.drop (a :: as).length) with
      | none => rw [hfind] at h; exact absurd h (by simp)
      | some pr =>
        obtain ⟨content₀, rest₀⟩ := pr
        rw [hfind] at h
        obtain ⟨rfl, rfl⟩ : content = content₀ ∧ rest = rest₀ := by
          constructor
          · simpa using congrArg (fun p => (Option.map Prod.fst p).getD []) h.symm
          · simpa using congrArg (fun p => (Option.map Prod.snd p).getD []) h.symm
        have h1 := findSub_length hfind
        have h2 := startsWithList_length hs
        simp only [List.length_drop, List.length_cons] at h1 h2 ⊢
        omega
    · exact absurd h (by simp)

/-- Global replacement of `START([\s\S]*?)END` by `wrap content`, scanning
left to right. -/
def pairReplace (startM endM : List Char) (wrap : List Char → List Char) :
    List Char → List Char
  | [] => []
  | c :: cs =>
    match h : tryPairAt startM endM (c :: cs) with
    | some (content, rest) =>
      wrap content ++ pairReplace startM endM wrap rest
    | none => c :: pairReplace startM endM wrap cs
  termination_by s => s.length
  decreasing_by
  · exact tryPairAt_length h
  · simp

/-- Embedding of `processBlurMarkers` (markers.ts): wrap each blur region in the inline
blur-styled span. -/
def processBlurMarkers (text : String) : String :=
  if ¬ jsIncludes text BLUR_START then text
  else
    String.mk (pairReplace BLUR_START.toList BLUR_END.toList
      (fun content =>
        "<span class=\"diymod-blur\">".toList ++ content ++ "</span>".toList)
      text.toList)

/-- Embedding of `processRewriteMarkers` (markers.ts): wrap each rewrite region in the
"modified" block. -/
def processRewriteMarkers (text : String) : String :=
  if ¬ jsIncludes text REWRITE_START then text
  else
    String.mk (pairReplace REWRITE_START.toList REWRITE_END.toList
      (fun content =>
        "<div class=\"diymod-rewritten\">\n      ".toList ++ content ++
        "\n      <div class=\"modification-indicator\">Modified by DIY-MOD</div>\n    </div>".toList)
      text.toList)

/-- Characters matched by an un-flagged JS regex `.` (anything except line
terminators). -/
def regexDot (c : Char) : Bool :=
  ¬ (c = '\n' ∨ c = '\r' ∨ c.val = 0x2028 ∨ c.val = 0x2029)

/-- JS `String.trim`. -/
def trimList (s : List Char) : List Char :=
  ((s.dropWhile Char.isWhitespace).reverse.dropWhile Char.isWhitespace).reverse

/-- Match of the warning/content part of the overlay pattern against the text
following the start marker: the lazy warning group runs to the first `|` and
must consist of `.`-matchable characters; the content runs to the first end
marker. -/
def tryOverlayTail (rest1 : List Char) : Option (List Char × List Char × List Char) :=
  if ((rest1.takeWhile (fun c => c ≠ '|')).length < rest1.length
      ∧ (rest1.takeWhile (fun c => c ≠ '|')).all regexDot) then
    match findSub OVERLAY_END.toList
        (rest1.drop ((rest1.takeWhile (fun c => c ≠ '|')).length + 1)) with
    | some (content, rest) =>
      some (rest1.takeWhile (fun c => c ≠ '|'), content, rest)
    | none => none
  else none

/-- One match attempt of `OVERLAY_START(.*?)\|([\s\S]*?)OVERLAY_END` at the
head of `s`. -/
def tryOverlayAt (s : List Char) : Option (List Char × List Char × List Char) :=
  if startsWithList OVERLAY_START.toList s then
    tryOverlayTail (s.drop OVERLAY_START.toList.length)
  else none

theorem tryOverlayTail_length {rest1 w content rest : List Char}
    (h : tryOverlayTail rest1 = some (w, content, rest)) :
    rest.length ≤ rest1.length := by
  unfold tryOverlayTail at h
  split at h
  · cases hfind : findSub OVERLAY_END.toList
        (rest1.drop ((rest1.takeWhile (fun c => c ≠ '|')).length + 1)) with
    | none => rw [hfind] at h; exact absurd h (by simp)
    | some pr =>
      obtain ⟨content₀, rest₀⟩ := pr
      rw [hfind] at h
      have hrest : rest = rest₀ := by
        simpa using congrArg (fun p => (Option.map (fun q => q.2.2) p).getD []) h.symm
      subst hrest
      have h1 := findSub_length hfind
      simp only [List.length_drop] at h1
      omega
  · exact absurd h (by simp)

theorem tryOverlayAt_length {s w content rest : List Char}
    (h : tryOverlayAt s = some (w, content, rest)) :
    rest.length < s.length := by
  unfold tryOverlayAt at h
  split at h
  · rename_i hs
    have h1 := tryOverlayTail_length h
    have h2 := startsWithList_length hs
    have h3 : OVERLAY_START.toList.length = 17 := by decide
    simp only [List.length_drop] at h1
    omega
  · exact absurd h (by simp)

/-- The overlay wrapper element (markers.ts, `processOverlayMarkers`): a
clickable reveal/hide container with the warning label, content hidden by
default. -/
def overlayWrap (w content : List Char) : List Char :=
  let warningText := if trimList w = [] then "Content filtered".toList else trimList w
  "<div class=\"content-overlay diymod-overlay hidden\" data-warning=\"".toList ++
    warningText ++
    "\" onclick=\"this.classList.toggle(\x27hidden\x27)\">\n      <div class=\"content\">".toList ++
    content ++
    "</div>\n      <div class=\"warning\">".toList ++
    warningText ++
    "</div>\n    </div>".toList

/-- Left-to-right global replacement for the overlay pattern. -/
def overlayScan : List Char → List Char
  | [] => []
  | c :: cs =>
    match h : tryOverlayAt (c :: cs) with
    | some (w, content, rest) => overlayWrap w content ++ overlayScan rest
    | none => c :: overlayScan cs
  termination_by s => s.length
  decreasing_by
  · exact tryOverlayAt_length h
  · simp

/-- Embedding of `processOverlayMarkers` (markers.ts). -/
def processOverlayMarkers (text : String) : String :=
  if ¬ jsIncludes text OVERLAY_START then text
  else String.mk (overlayScan text.toList)

/-- Embedding of `hasAnyMarkers` (markers.ts): false on the empty (falsy) string, otherwise
true iff one of the three registered handlers detects its start marker. -/
def hasAnyMarkers (text : String) : Bool :=
  if text = "" then false
  else
    jsIncludes text BLUR_START || jsIncludes text OVERLAY_START ||
      jsIncludes text REWRITE_START

/-- Embedding of `processMarkedText` (markers.ts): empty string short-circuits to `""`, a
marker-free string is returned unchanged without running any handler, and
otherwise the registered handlers (blur, overlay, rewrite — registration
order) each run when they detect their start marker in the accumulated
result. -/
def processMarkedText (text : String) : String :=
  if text = "" then ""
  else if ¬ hasAnyMarkers text then text
  else
    let r1 := if jsIncludes text BLUR_START then processBlurMarkers text else text
    let r2 := if jsIncludes r1 OVERLAY_START then processOverlayMarkers r1 else r1
    if jsIncludes r2 REWRITE_START then processRewriteMarkers r2 else r2

/-!
## Network interceptor: URL matching

Source: `src/content/interceptor/network/base-interceptor.ts`,
`BaseInterceptor.shouldInterceptUrl`.

The host runtime's `new URL(url)` is modelled by its outcome: `none` when the
constructor throws (malformed URL) — the code catches that and returns `false`
— and `some pathname` otherwise.
-/

/-- JS `String.split` with a single-character separator. -/
def splitOnChar (sep : Char) : List Char → List (List Char)
  | [] => [[]]
  | c :: cs =>
    if c = sep then [] :: splitOnChar sep cs
    else
      match splitOnChar sep cs with
      | [] => [[c]]
      | g :: gs => (c :: g) :: gs

/-- Embedding of `BaseInterceptor.shouldInterceptUrl`: takes the outcome of `new URL(url)`
(the parsed pathname, or `none` when parsing threw) and the subscribed
endpoint list.  Mirrors: `pathname.split('?')[0].split('/').filter(Boolean)`,
pop the last segment, check membership. -/
def shouldInterceptUrl (parsedPathname : Option String)
    (subscribedEndpoints : List String) : Bool :=
  match parsedPathname with
  | none => false
  | some pathname =>
    let beforeQuery := (splitOnChar '?' pathname.toList).headD []
    let segments := (splitOnChar '/' beforeQuery).filter (fun s => s ≠ [])
    match segments.getLast? with
    | none => false
    | some actionName =>
      if actionName = [] then false
      else subscribedEndpoints.contains (String.mk actionName)

/-!
## Reddit platform adapter

Source: the `RedditAdapter` class in
`src/content/modules/message-handler.ts` (`extractPosts`,
`extractMediaUrls`, `isImageUrl`, `updateResponseWithProcessedPosts`,
`updateMediaUrls`).

The host runtime's `JSON.parse(responseData)` is modelled by its outcome
(`Option Json`); the `none` case corresponds to the parse throwing, which the
source catches (returning `[]` / the original response unchanged).
-/

/-- Embedding of `ProcessedPost` (shared/types): backend result for one post.  Optional
values model JS `undefined`. -/
structure ProcessedPost where
  id : String
  processedTitle : Option String := none
  processedBody : Option String := none
  processedMediaUrls : Option (List String) := none
deriving Repr

/-- The uniform `Post` model (shared/types).  Field values are kept as the
raw JS values read off the response (`Option Json`, `none` = `undefined`). -/
structure Post where
  id : Option Json
  title : Option Json := none
  body : Option Json := none
  mediaUrls : List Json := []
  platform : String := "reddit"
  metadata : List (String × Option Json) := []
deriving Repr

/-- Optional chaining `o?.k` on a possibly-undefined base. -/
def chainField (o : Option Json) (k : String) : Option Json :=
  o.bind (fun j => getField j k)

/-- String coercion of primitive JS values (`RegExp.test` coerces its
argument).  Array/object coercion is not modelled; the adapter's URL fields
are strings. -/
def jsToStringPrim : Json → String
  | .str s => s
  | .num n => toString n
  | .bool b => if b then "true" else "false"
  | .null => "null"
  | .arr _ => ""
  | .obj _ => "[object Object]"

def imageExts : List String := ["jpg", "jpeg", "png", "gif", "webp"]

/-- True iff `suffix` is a final segment of `s`. -/
def endsWithList (suffix s : List Char) : Bool :=
  startsWithList suffix.reverse s.reverse

/-- All decompositions of `s` as `before ++ [?] ++ after`. -/
def qSplits : List Char → List (List Char × List Char)
  | [] => []
  | c :: cs =>
    (if c = '?' then [(([] : List Char), cs)] else []) ++
      (qSplits cs).map (fun p => (c :: p.1, p.2))

/-- Embedding of `RedditAdapter.isImageUrl`: the case-insensitive regex
`\.(jpg|jpeg|png|gif|webp)(\?.*)?$` — the URL ends in an image extension,
either at the very end or followed by `?` and a query (the query matched by
`.*`, hence free of line terminators). -/
def isImageUrl (url : String) : Bool :=
  imageExts.any (fun e =>
    endsWithList ("." ++ e).toList (url.toList.map Char.toLower) ||
      (qSplits (url.toList.map Char.toLower)).any
        (fun p => endsWithList ("." ++ e).toList p.1 && p.2.all regexDot))

/-- Embedding of `RedditAdapter.extractMediaUrls`: preview images (`image.source?.url`),
gallery entries (`media_metadata[*].s?.u`), then the direct post URL when it
is an image.  Pushed values are kept as raw JS values. -/
def extractMediaUrls (post : Json) : List Json :=
  let fromPreview :=
    match chainField (getField post "preview") "images" with
    | some (.arr images) =>
      images.flatMap (fun image =>
        match chainField (getField image "source") "url" with
        | some u => if truthy u then [u] else []
        | none => [])
    | _ => []
  let fromMeta :=
    match getField post "media_metadata" with
    | some (.obj fields) =>
      fields.flatMap (fun kv =>
        match chainField (getField kv.2 "s") "u" with
        | some u => if truthy u then [u] else []
        | none => [])
    | _ => []
  let fromUrl :=
    match getField post "url" with
    | some url =>
      if truthy url && isImageUrl (jsToStringPrim url) then [url] else []
    | none => []
  fromPreview ++ fromMeta ++ fromUrl

/-- The post object built for a `t3` listing child / the detail main post. -/
def mkListingPost (post : Json) : Post where
  id := jsOr (getField post "name") (getField post "id")
  title := getField post "title"
  body := getField post "selftext"
  mediaUrls := extractMediaUrls post
  platform := "reddit"
  metadata :=
    [("subreddit", getField post "subreddit"),
     ("author", getField post "author"),
     ("created", getField post "created_utc")]

/-- The post object built for a `t1` comment child of a detail response. -/
def mkCommentPost (cd : Json) : Post where
  id := jsOr (getField cd "name") (getField cd "id")
  body := getField cd "body"
  mediaUrls := []
  platform := "reddit"
  metadata :=
    [("type", some (.str "comment")),
     ("author", getField cd "author"),
     ("parent", getField cd "parent_id")]

/-- The listing-response condition
`data.kind === 'Listing' && Array.isArray(data.data?.children)`, returning
the children when it holds. -/
def listingChildren (data : Json) : Option (List Json) :=
  match getField data "kind" with
  | some (.str "Listing") =>
    match chainField (getField data "data") "children" with
    | some (.arr cs) => some cs
    | _ => none
  | _ => none

/-- The chain `data[0]?.data?.children?.[0]?.data`. -/
def chain0 (data : Json) : Option Json :=
  ((((getIndex data 0).bind (getField · "data")).bind
      (getField · "children")).bind (fun j => getIndex j 0)).bind
    (getField · "data")

/-- The chain `data[1]?.data?.children`. -/
def chain1 (data : Json) : Option Json :=
  ((getIndex data 1).bind (getField · "data")).bind (getField · "children")

/-- The post-detail-response condition
`data[0]?.data?.children?.[0]?.data && data[1]?.data?.children`. -/
def detailCond (data : Json) : Bool :=
  truthyO (chain0 data) && truthyO (chain1 data)

/-- Embedding of `RedditAdapter.extractPosts`.  Takes the outcome of
`JSON.parse(responseData)`; a failed parse is caught by the source and
yields `[]`.  A `t3` child with undefined `data` would make the source throw
to that same catch (overall result `[]`); the embedding skips such children
instead, which is indistinguishable for well-formed responses. -/
def extractPosts (parsed : Option Json) : List Post :=
  match parsed with
  | none => []
  | some data =>
    let listingPosts :=
      match listingChildren data with
      | some cs =>
        cs.flatMap (fun child =>
          match getField child "kind", getField child "data" with
          | some (.str "t3"), some post => [mkListingPost post]
          | _, _ => [])
      | none => []
    let detailPosts :=
      if detailCond data then
        let main := mkListingPost ((chain0 data).getD .null)
        let comments :=
          match chain1 data with
          | some (.arr children) =>
            children.flatMap (fun comment =>
              match getField comment "kind", getField comment "data" with
              | some (.str "t1"), some cd =>
                if truthy cd then [mkCommentPost cd] else []
              | _, _ => [])
          | _ => []
        main :: comments
      else []
    listingPosts ++ detailPosts

/-- The `processedPostMap` built by `forEach`/`Map.set`: later entries with
the same id overwrite earlier ones (last-write-wins). -/
def buildMap (processedPosts : List ProcessedPost) : List (String × ProcessedPost) :=
  processedPosts.foldl (fun m pp => setAssoc m pp.id pp) []

/-- Embedding of `processedPostMap.get(post.name || post.id)`: a `Map` keyed by strings is
only hit when the looked-up JS value is that same string (SameValueZero). -/
def lookupPP (m : List (String × ProcessedPost)) (key : Option Json) :
    Option ProcessedPost :=
  match key with
  | some (.str s) => lookupAssoc m s
  | _ => none

/-- Threaded update of `post.preview.images`: mutates `image.source.url` (and
every `resolutions[*].url`) with the next processed URL, advancing `urlIndex`
only for images that have a truthy `source`. -/
def updateImages : List Json → List String → Nat → List Json
  | [], _, _ => []
  | image :: rest, urls, i =>
    match getField image "source" with
    | some src =>
      if truthy src && i < urls.length then
        let u := urls.getD i ""
        let img1 := image.set "source" (src.set "url" (.str u))
        let img2 :=
          match getField img1 "resolutions" with
          | some (.arr rs) =>
            img1.set "resolutions" (.arr (rs.map (fun r => r.set "url" (.str u))))
          | _ => img1
        img2 :: updateImages rest urls (i + 1)
      else image :: updateImages rest urls i
    | none => image :: updateImages rest urls i

/-- Threaded update of `post.media_metadata`: mutates `media.s.u` for every
entry with a truthy `s`, advancing `urlIndex`. -/
def updateMeta : List (String × Json) → List String → Nat → List (String × Json)
  | [], _, _ => []
  | (k, media) :: rest, urls, i =>
    match getField media "s" with
    | some s =>
      if truthy s && i < urls.length then
        (k, media.set "s" (s.set "u" (.str (urls.getD i "")))) ::
          updateMeta rest urls (i + 1)
      else (k, media) :: updateMeta rest urls i
    | none => (k, media) :: updateMeta rest urls i

/-- First step of `updateMediaUrls`: the direct URL swap
(`processedUrls.length === 1 && post.url && isImageUrl(post.url)`). -/
def updMediaDirect (post : Json) (processedUrls : List String) : Json :=
  match processedUrls, getField post "url" with
  | [u], some url =>
    if truthy url && isImageUrl (jsToStringPrim url) then
      Json.set post "url" (.str u)
    else post
  | _, _ => post

/-- Second step of `updateMediaUrls`: the preview-image fan-out
(`post.preview?.images && processedUrls.length > 0`).  A truthy non-array
`images` makes the source throw (not modelled; adapter inputs carry arrays
there). -/
def updMediaPreview (post : Json) (processedUrls : List String) : Json :=
  match getField post "preview" with
  | some preview =>
    match getField preview "images" with
    | some (.arr images) =>
      if processedUrls.length > 0 then
        Json.set post "preview"
          (Json.set preview "images" (.arr (updateImages images processedUrls 0)))
      else post
    | _ => post
  | none => post

/-- Third step of `updateMediaUrls`: the gallery map
(`post.media_metadata && processedUrls.length > 0`). -/
def updMediaGallery (post : Json) (processedUrls : List String) : Json :=
  match getField post "media_metadata" with
  | some (.obj mfs) =>
    if processedUrls.length > 0 then
      Json.set post "media_metadata" (.obj (updateMeta mfs processedUrls 0))
    else post
  | _ => post

/-- Embedding of `RedditAdapter.updateMediaUrls`: direct URL swap for single-image posts,
then the preview fan-out, then the gallery map — in source order, each step
reading the object as mutated by the previous one. -/
def updateMediaUrls (post : Json) (processedUrls : List String) : Json :=
  updMediaGallery (updMediaPreview (updMediaDirect post processedUrls) processedUrls)
    processedUrls

/-- Embedding of `if (processedPost.processedTitle) post.title = processMarkedText(...)`. -/
def patchTitle (post : Json) (pp : ProcessedPost) : Json :=
  match pp.processedTitle with
  | some t =>
    if t ≠ "" then Json.set post "title" (.str (processMarkedText t)) else post
  | none => post

/-- Embedding of `if (processedPost.processedBody)` — overwrite `selftext` and
`selftext_html`. -/
def patchBody (post : Json) (pp : ProcessedPost) : Json :=
  match pp.processedBody with
  | some b =>
    if b ≠ "" then
      Json.set (Json.set post "selftext" (.str (processMarkedText b)))
        "selftext_html" (.str (processMarkedText b))
    else post
  | none => post

/-- Embedding of `if (processedPost.processedMediaUrls && ... .length > 0)`. -/
def patchMedia (post : Json) (pp : ProcessedPost) : Json :=
  match pp.processedMediaUrls with
  | some urls => if urls.length > 0 then updateMediaUrls post urls else post
  | none => post

/-- The per-post patch applied inside `updateResponseWithProcessedPosts`:
overwrite `title` when `processedTitle` is truthy, `selftext`/`selftext_html`
when `processedBody` is truthy (both through `processMarkedText`), and the
media URL slots when `processedMediaUrls` is a nonempty array. -/
def patchPost (post : Json) (pp : ProcessedPost) : Json :=
  patchMedia (patchBody (patchTitle post pp) pp) pp

/-- Patch of one listing child: only `t3` children whose id
(`post.name || post.id`) hits the processed map are touched.  (As in
`extractPosts`, a `t3` child with undefined `data` would make the source
throw to the catch-all, returning the whole original response unchanged.) -/
def updateChild (pmap : List (String × ProcessedPost)) (child : Json) : Json :=
  match getField child "kind" with
  | some (.str "t3") =>
    match getField child "data" with
    | some post =>
      match lookupPP pmap (jsOr (getField post "name") (getField post "id")) with
      | some pp => child.set "data" (patchPost post pp)
      | none => child
    | none => child
  | _ => child

/-- In-place update of an existing property (`x.k` read, mutated, written). -/
def modifyField (j : Json) (k : String) (f : Json → Json) : Json :=
  match getField j k with
  | some v => Json.set j k (f v)
  | none => j

/-- In-place update of an existing index. -/
def modifyIndex (j : Json) (i : Nat) (f : Json → Json) : Json :=
  match j with
  | .arr elts =>
    match elts.get? i with
    | some v => .arr (elts.set i (f v))
    | none => j
  | .obj fields =>
    match lookupAssoc fields (toString i) with
    | some v => .obj (setAssoc fields (toString i) (f v))
    | none => j
  | _ => j

/-- Patch of one comment child of a detail response: `t1` comments with a
truthy `data` whose id hits the map and whose `processedBody` is truthy get
`body`/`body_html` overwritten. -/
def patchComment (pmap : List (String × ProcessedPost)) (comment : Json) : Json :=
  match getField comment "kind", getField comment "data" with
  | some (.str "t1"), some cd =>
    if truthy cd then
      match lookupPP pmap (jsOr (getField cd "name") (getField cd "id")) with
      | some pc =>
        match pc.processedBody with
        | some b =>
          if b ≠ "" then
            comment.set "data"
              ((cd.set "body" (.str (processMarkedText b))).set "body_html"
                (.str (processMarkedText b)))
          else comment
        | none => comment
      | none => comment
    else comment
  | _, _ => comment

/-- The detail-response branch of `updateResponseWithProcessedPosts`: patch
the main post at `data[0].data.children[0].data`, then the comments at
`data[1].data.children`. -/
def detailUpdate (pmap : List (String × ProcessedPost)) (data : Json) : Json :=
  let d1 :=
    modifyIndex data 0 (fun x =>
      modifyField x "data" (fun y =>
        modifyField y "children" (fun z =>
          modifyIndex z 0 (fun c =>
            modifyField c "data" (fun post =>
              match lookupPP pmap
                  (jsOr (getField post "name") (getField post "id")) with
              | some pp => patchPost post pp
              | none => post)))))
  modifyIndex d1 1 (fun x =>
    modifyField x "data" (fun y =>
      modifyField y "children" (fun z =>
        match z with
        | .arr comments => .arr (comments.map (patchComment pmap))
        | _ => z)))

/-- The parsed-data part of `updateResponseWithProcessedPosts`: the listing
branch (children patched in place), then the detail branch evaluated on the
(possibly already mutated) data. -/
def updateData (pmap : List (String × ProcessedPost)) (data : Json) : Json :=
  let d1 :=
    match listingChildren data, getField data "data" with
    | some cs, some dd =>
      Json.set data "data" (Json.set dd "children" (.arr (cs.map (updateChild pmap))))
    | _, _ => data
  if detailCond d1 then detailUpdate pmap d1 else d1

/-- Embedding of `RedditAdapter.updateResponseWithProcessedPosts`.  Takes the outcome of
`JSON.parse(originalResponse)`; `none` (parse threw) hits the catch and the
original response string is returned unchanged — modelled as `none`.  On
success the source returns `JSON.stringify` of the mutated data, modelled as
`some` of the updated value. -/
def updateResponseWithProcessedPosts (parsed : Option Json)
    (processedPosts : List ProcessedPost) : Option Json :=
  match parsed with
  | none => none
  | some data => some (updateData (buildMap processedPosts) data)

/-!
## Claims C1 and C2
-/

/-- The set of top-level post fields that `patchPost` may write for a given
`ProcessedPost` — exactly the fields explicitly present (and truthy/nonempty)
on it: the title, the body pair, and the media URL slots. -/
def changedKeys (pp : ProcessedPost) : List String :=
  (match pp.processedTitle with
   | some t => if t ≠ "" then ["title"] else []
   | none => []) ++
  (match pp.processedBody with
   | some b => if b ≠ "" then ["selftext", "selftext_html"] else []
   | none => []) ++
  (match pp.processedMediaUrls with
   | some urls => if urls.length > 0 then ["url", "preview", "media_metadata"] else []
   | none => [])

theorem getField_updMediaDirect_ne (post : Json) (urls : List String) (k : String)
    (h : k ≠ "url") : getField (updMediaDirect post urls) k = getField post k := by
  unfold updMediaDirect
  split
  · split
    · exact getField_set_ne _ _ _ _ h
    · rfl
  · rfl

theorem getField_updMediaPreview_ne (post : Json) (urls : List String) (k : String)
    (h : k ≠ "preview") : getField (updMediaPreview post urls) k = getField post k := by
  unfold updMediaPreview
  split
  · split
    · split
      · exact getField_set_ne _ _ _ _ h
      · rfl
    · rfl
  · rfl

theorem getField_updMediaGallery_ne (post : Json) (urls : List String) (k : String)
    (h : k ≠ "media_metadata") :
    getField (updMediaGallery post urls) k = getField post k := by
  unfold updMediaGallery
  split
  · split
    · exact getField_set_ne _ _ _ _ h
    · rfl
  · rfl

theorem getField_updateMediaUrls_ne (post : Json) (urls : List String) (k : String)
    (h1 : k ≠ "url") (h2 : k ≠ "preview") (h3 : k ≠ "media_metadata") :
    getField (updateMediaUrls post urls) k = getField post k := by
  unfold updateMediaUrls
  rw [getField_updMediaGallery_ne _ _ _ h3, getField_updMediaPreview_ne _ _ _ h2,
    getField_updMediaDirect_ne _ _ _ h1]

theorem getField_patchTitle_ne (post : Json) (pp : ProcessedPost) (k : String)
    (hk : k ∉ changedKeys pp) : getField (patchTitle post pp) k = getField post k := by
  unfold patchTitle
  split
  · rename_i t heq
    split
    · rename_i ht
      apply getField_set_ne
      intro hkt
      exact hk (by simp [changedKeys, heq, ht, hkt])
    · rfl
  · rfl

theorem getField_patchBody_ne (post : Json) (pp : ProcessedPost) (k : String)
    (hk : k ∉ changedKeys pp) : getField (patchBody post pp) k = getField post k := by
  unfold patchBody
  split
  · rename_i b heq
    split
    · rename_i hb
      rw [getField_set_ne, getField_set_ne]
      · intro hkt
        exact hk (by simp [changedKeys, heq, hb, hkt])
      · intro hkt
        exact hk (by simp [changedKeys, heq, hb, hkt])
    · rfl
  · rfl

theorem getField_patchMedia_ne (post : Json) (pp : ProcessedPost) (k : String)
    (hk : k ∉ changedKeys pp) : getField (patchMedia post pp) k = getField post k := by
  unfold patchMedia
  split
  · rename_i urls heq
    split
    · rename_i hu
      refine getField_updateMediaUrls_ne _ _ _ ?_ ?_ ?_ <;>
        · intro hkt
          exact hk (by simp [changedKeys, heq, hu, hkt])
    · rfl
  · rfl

/-- A field not named by the `ProcessedPost` is left untouched by the
per-post patch. -/
theorem getField_patchPost_ne (post : Json) (pp : ProcessedPost) (k : String)
    (hk : k ∉ changedKeys pp) : getField (patchPost post pp) k = getField post k := by
  unfold patchPost
  rw [getField_patchMedia_ne _ _ _ hk, getField_patchBody_ne _ _ _ hk,
    getField_patchTitle_ne _ _ _ hk]

/-- C1.  Fail-open at every parse boundary: `shouldInterceptUrl` returns
`false` when `new URL` throws; `extractPosts` returns `[]` when `JSON.parse`
throws and also when the parsed value matches neither the listing shape nor
the post-detail shape; `updateResponseWithProcessedPosts` returns the
original string unchanged (modelled as `none`) when re-parsing throws.  All
three embedded functions are total, mirroring the source's catch-all
handlers: no input makes them throw. -/
theorem c1_fail_open :
    (∀ endpoints : List String, shouldInterceptUrl none endpoints = false)
    ∧ extractPosts none = []
    ∧ (∀ j : Json, listingChildren j = none → detailCond j = false →
        extractPosts (some j) = [])
    ∧ (∀ pps : List ProcessedPost, updateResponseWithProcessedPosts none pps = none) := by
  refine ⟨fun _ => rfl, rfl, ?_, fun _ => rfl⟩
  intro j h1 h2
  simp [extractPosts, h1, h2]

/-- Witness for C1 at concrete malformed/unrecognized inputs: an unparseable
URL, a response that is valid JSON but of unrecognized shape (a bare
string), and an unparseable original response. -/
theorem c1_fail_open_witness :
    shouldInterceptUrl none ["best"] = false
    ∧ listingChildren (.str "oops") = none
    ∧ detailCond (.str "oops") = false
    ∧ extractPosts (some (.str "oops")) = []
    ∧ updateResponseWithProcessedPosts none [] = none :=
  ⟨c1_fail_open.1 ["best"], rfl, rfl,
    c1_fail_open.2.2.1 (.str "oops") rfl rfl, c1_fail_open.2.2.2 []⟩

/-- The minimal Reddit `Listing` of the C2 scenario: one `t3` child post
`{id: "t3_abc", title: "T", selftext: "B"}`. -/
def scenarioListing : Json :=
  .obj [("kind", .str "Listing"),
        ("data", .obj [("children", .arr [
          .obj [("kind", .str "t3"),
                ("data", .obj [("id", .str "t3_abc"),
                               ("title", .str "T"),
                               ("selftext", .str "B")])]])])]

/-- The scenario's `ProcessedPost{id:"t3_abc", processedTitle:"T2"}`. -/
def scenarioPP : ProcessedPost where
  id := "t3_abc"
  processedTitle := some "T2"

/-- The merged scenario output: identical to `scenarioListing` except that
the post's `title` is now `"T2"`. -/
def scenarioMerged : Json :=
  .obj [("kind", .str "Listing"),
        ("data", .obj [("children", .arr [
          .obj [("kind", .str "t3"),
                ("data", .obj [("id", .str "t3_abc"),
                               ("title", .str "T2"),
                               ("selftext", .str "B")])]])])]

/-- C2.  Merge-patch round trip on a Reddit listing response: the update is
exactly the original object with its `data.children` entries patched
child-by-child; a non-`t3` child is unchanged, a child whose id misses the
processed map is unchanged, and for a matched child only the fields named by
its `ProcessedPost` (`changedKeys`) can differ — every other field of the
post object is unchanged.  In particular, merging the scenario listing with
`ProcessedPost{id:"t3_abc", processedTitle:"T2"}` gives title `"T2"` and an
unchanged `selftext` of `"B"`. -/
theorem c2_merge_patch (rfs dfs : List (String × Json)) (cs : List Json)
    (pps : List ProcessedPost)
    (hkind : lookupAssoc rfs "kind" = some (.str "Listing"))
    (hdata : lookupAssoc rfs "data" = some (.obj dfs))
    (hchildren : lookupAssoc dfs "children" = some (.arr cs))
    (h0 : lookupAssoc rfs "0" = none) :
    (updateResponseWithProcessedPosts (some (.obj rfs)) pps =
      some (Json.set (.obj rfs) "data"
        (Json.set (.obj dfs) "children" (.arr (cs.map (updateChild (buildMap pps)))))))
    ∧ (∀ child : Json, getField child "kind" ≠ some (.str "t3") →
        updateChild (buildMap pps) child = child)
    ∧ (∀ child post : Json, getField child "data" = some post →
        lookupPP (buildMap pps) (jsOr (getField post "name") (getField post "id")) = none →
        updateChild (buildMap pps) child = child)
    ∧ (∀ (child post : Json) (pp : ProcessedPost),
        getField child "kind" = some (.str "t3") →
        getField child "data" = some post →
        lookupPP (buildMap pps) (jsOr (getField post "name") (getField post "id")) = some pp →
        updateChild (buildMap pps) child = Json.set child "data" (patchPost post pp)
          ∧ ∀ k : String, k ∉ changedKeys pp →
              getField (patchPost post pp) k = getField post k)
    ∧ updateResponseWithProcessedPosts (some scenarioListing) [scenarioPP] =
        some scenarioMerged
    ∧ chainField (chainField (getIndex ((chainField
        (chainField (some scenarioMerged) "data") "children").getD .null) 0) "data")
        "title" = some (.str "T2")
    ∧ chainField (chainField (getIndex ((chainField
        (chainField (some scenarioMerged) "data") "children").getD .null) 0) "data")
        "selftext" = some (.str "B") := by
  refine ⟨?_, ?_, ?_, ?_, by rfl, by rfl, by rfl⟩
  · have hlc : listingChildren (.obj rfs) = some cs := by
      simp [listingChildren, getField, chainField, hkind, hdata, hchildren]
    have hgd : getField (.obj rfs) "data" = some (.obj dfs) := hdata
    have hdc : detailCond (Json.set (.obj rfs) "data"
        (Json.set (.obj dfs) "children" (.arr (cs.map (updateChild (buildMap pps)))))) = false := by
      have h0' : lookupAssoc (setAssoc rfs "data"
          (Json.obj (setAssoc dfs "children" (.arr (cs.map (updateChild (buildMap pps)))))))
          (toString (0 : Nat)) = none := by
        have hts : (toString (0 : Nat)) = "0" := rfl
        rw [hts, lookupAssoc_setAssoc_ne _ _ _ _ (by decide)]
        exact h0
      have hc0 : chain0 (Json.set (.obj rfs) "data"
          (Json.set (.obj dfs) "children" (.arr (cs.map (updateChild (buildMap pps)))))) = none := by
        simp [chain0, Json.set, getIndex, h0']
      simp [detailCond, hc0, truthyO]
    simp only [updateResponseWithProcessedPosts, updateData, hlc, hgd, hdc,
      Bool.false_eq_true, if_false]
  · intro child hkind'
    unfold updateChild
    cases hc : getField child "kind" with
    | none => rfl
    | some v =>
      cases v with
      | str s =>
        by_cases hs : s = "t3"
        · subst hs; exact absurd hc hkind'
        · simp [hs]
      | null => rfl
      | bool b => rfl
      | num n => rfl
      | arr l => rfl
      | obj l => rfl
  · intro child post hdata' hmiss
    unfold updateChild
    cases hc : getField child "kind" with
    | none => rfl
    | some v =>
      cases v with
      | str s =>
        by_cases hs : s = "t3"
        · subst hs
          simp [hdata', hmiss]
        · simp [hs]
      | null => rfl
      | bool b => rfl
      | num n => rfl
      | arr l => rfl
      | obj l => rfl
  · intro child post pp hkind' hdata' hhit
    constructor
    · simp [updateChild, hkind', hdata', hhit]
    · intro k hk
      exact getField_patchPost_ne post pp k hk

/-- Witness for C2: the scenario listing satisfies the hypotheses, and the
theorem applies to it. -/
theorem c2_merge_patch_witness :
    lookupAssoc [("kind", Json.str "Listing"),
        ("data", Json.obj [("children", Json.arr [
          Json.obj [("kind", Json.str "t3"),
                ("data", Json.obj [("id", Json.str "t3_abc"),
                               ("title", Json.str "T"),
                               ("selftext", Json.str "B")])]])])] "kind" =
      some (.str "Listing")
    ∧ updateResponseWithProcessedPosts (some scenarioListing) [scenarioPP] =
        some scenarioMerged := by
  refine ⟨rfl, ?_⟩
  exact (c2_merge_patch
    [("kind", Json.str "Listing"),
     ("data", Json.obj [("children", Json.arr [
       Json.obj [("kind", Json.str "t3"),
             ("data", Json.obj [("id", Json.str "t3_abc"),
                            ("title", Json.str "T"),
                            ("selftext", Json.str "B")])]])])]
    [("children", Json.arr [
       Json.obj [("kind", Json.str "t3"),
             ("data", Json.obj [("id", Json.str "t3_abc"),
                            ("title", Json.str "T"),
                            ("selftext", Json.str "B")])]])]
    [Json.obj [("kind", Json.str "t3"),
          ("data", Json.obj [("id", Json.str "t3_abc"),
                         ("title", Json.str "T"),
                         ("selftext", Json.str "B")])]]
    [scenarioPP] rfl rfl rfl rfl).2.2.2.2.1

/-!
## Fetch interceptor

Source: `FetchInterceptor.overrideFetch` (fetch-interceptor.ts).

The wrapped `window.fetch` call is modelled by its decision structure: the
URL check (`shouldInterceptUrl`), the `response.ok` check, and — for
processed responses — the promise executor that races the `CustomFeedReady`
listener against the `setTimeout`.  The executor's life is a fold over the
trace of delivered events (timer expiry and `CustomFeedReady` dispatches, in
delivery order; the event loop delivers them one at a time). -/

/-- An event delivered to the fetch promise executor. -/
inductive FetchEv where
  | timeout
  | feedReady (id : String) (body : String)
deriving Repr, DecidableEq

/-- A call of the executor's `resolve`. -/
inductive FetchResolution where
  | originalClone
  | processed (body : String)
deriving Repr, DecidableEq

/-- Executor state: whether the timeout is still armed (a fired or cleared
timer never fires again), whether the `CustomFeedReady` listener is still
registered, and the `resolve` calls made so far, in order. -/
structure FetchPromiseState where
  timeoutActive : Bool
  listenerActive : Bool
  resolutions : List FetchResolution
deriving Repr, DecidableEq

def initFetchPromise : FetchPromiseState :=
  { timeoutActive := true, listenerActive := true, resolutions := [] }

/-- One delivered event.  The timeout callback removes the listener and
resolves with the clone of the original response; the listener ignores
events whose `detail.id` differs from the interceptor's request id, and on a
match clears the timeout, deregisters itself and resolves with a new
`Response` built from the processed body. -/
def fetchPromiseStep (requestId : String) (s : FetchPromiseState) :
    FetchEv → FetchPromiseState
  | .timeout =>
    if s.timeoutActive then
      { timeoutActive := false, listenerActive := false,
        resolutions := s.resolutions ++ [.originalClone] }
    else s
  | .feedReady id body =>
    if s.listenerActive && id == requestId then
      { timeoutActive := false, listenerActive := false,
        resolutions := s.resolutions ++ [.processed body] }
    else s

def runFetchPromise (requestId : String) (evs : List FetchEv) : FetchPromiseState :=
  evs.foldl (fetchPromiseStep requestId) initFetchPromise

/-- What the wrapped fetch hands back to the host page. -/
inductive FetchReturn where
  | passthrough
  | errorResponse
  | fromPromise (resolutions : List FetchResolution)
deriving Repr, DecidableEq

structure FetchCallOutcome where
  dispatchedSaveBatch : Bool
  returned : FetchReturn
deriving Repr, DecidableEq

/-- Embedding of `FetchInterceptor.overrideFetch`, per intercepted call: a URL that fails
the endpoint check is passed through untouched; a non-2xx response
(`!response.ok`) is returned as-is before any clone/dispatch; otherwise a
`SaveBatch` event is dispatched and the returned promise behaves as
`runFetchPromise` over the delivered events. -/
def overrideFetchCall (parsedPathname : Option String) (endpoints : List String)
    (responseOk : Bool) (requestId : String) (evs : List FetchEv) :
    FetchCallOutcome :=
  if ¬ shouldInterceptUrl parsedPathname endpoints then
    { dispatchedSaveBatch := false, returned := .passthrough }
  else if ¬ responseOk then
    { dispatchedSaveBatch := false, returned := .errorResponse }
  else
    { dispatchedSaveBatch := true,
      returned := .fromPromise (runFetchPromise requestId evs).resolutions }

/-- An event that would settle the pending interception for `requestId`. -/
def matchesRequest (requestId : String) : FetchEv → Bool
  | .feedReady id _ => id == requestId
  | .timeout => false

theorem fetchPromise_pre_inert (requestId : String) (pre : List FetchEv)
    (hpre : ∀ e ∈ pre, matchesRequest requestId e = false ∧ e ≠ .timeout) :
    pre.foldl (fetchPromiseStep requestId) initFetchPromise = initFetchPromise := by
  induction pre with
  | nil => rfl
  | cons e rest ih =>
    have he := hpre e (by simp)
    have hstep : fetchPromiseStep requestId initFetchPromise e = initFetchPromise := by
      cases e with
      | timeout => exact absurd rfl he.2
      | feedReady id body =>
        have hne : (id == requestId) = false := by
          simpa [matchesRequest] using he.1
        simp [fetchPromiseStep, initFetchPromise, hne]
    simp only [List.foldl_cons, hstep]
    exact ih (fun e' he' => hpre e' (by simp [he']))

theorem fetchPromise_settled_inert (requestId : String) (rs : List FetchResolution)
    (post : List FetchEv) :
    post.foldl (fetchPromiseStep requestId)
      { timeoutActive := false, listenerActive := false, resolutions := rs } =
      { timeoutActive := false, listenerActive := false, resolutions := rs } := by
  induction post with
  | nil => rfl
  | cons e rest ih =>
    have hstep : fetchPromiseStep requestId
        { timeoutActive := false, listenerActive := false, resolutions := rs } e =
        { timeoutActive := false, listenerActive := false, resolutions := rs } := by
      cases e with
      | timeout => simp [fetchPromiseStep]
      | feedReady id body => simp [fetchPromiseStep]
    simp only [List.foldl_cons, hstep]
    exact ih

/-- C3.  Timeout fallback determinism: on an intercepted, successful
response, if no `CustomFeedReady` event carrying the request's id is
delivered before the timeout fires, the promise resolves with the original
response clone — and resolves exactly once, regardless of what arrives after
the timeout (in particular a late correlated event does not produce a second
resolution or substitute a different body). -/
theorem c3_timeout_fallback (parsedPathname : Option String)
    (endpoints : List String) (requestId : String) (pre post : List FetchEv)
    (hint : shouldInterceptUrl parsedPathname endpoints = true)
    (hpre : ∀ e ∈ pre, matchesRequest requestId e = false ∧ e ≠ .timeout) :
    overrideFetchCall parsedPathname endpoints true requestId
      (pre ++ .timeout :: post) =
      { dispatchedSaveBatch := true, returned := .fromPromise [.originalClone] } := by
  have hrun : runFetchPromise requestId (pre ++ .timeout :: post) =
      { timeoutActive := false, listenerActive := false,
        resolutions := [.originalClone] } := by
    unfold runFetchPromise
    rw [List.foldl_append, fetchPromise_pre_inert requestId pre hpre]
    simp only [List.foldl_cons]
    have h1 : fetchPromiseStep requestId initFetchPromise .timeout =
        { timeoutActive := false, listenerActive := false,
          resolutions := [.originalClone] } := by
      simp [fetchPromiseStep, initFetchPromise]
    rw [h1, fetchPromise_settled_inert]
  simp [overrideFetchCall, hint, hrun]

/-- Witness for C3: request "1" intercepted on an allow-listed URL, one
uncorrelated event before the timeout, a late correlated event after it. -/
theorem c3_timeout_fallback_witness :
    shouldInterceptUrl (some "/api/best") ["best"] = true
    ∧ overrideFetchCall (some "/api/best") ["best"] true "1"
        ([.feedReady "other" "x"] ++ .timeout :: [.feedReady "1" "late"]) =
        { dispatchedSaveBatch := true, returned := .fromPromise [.originalClone] } :=
  ⟨by decide,
    c3_timeout_fallback (some "/api/best") ["best"] "1"
      [.feedReady "other" "x"] [.feedReady "1" "late"] (by decide) (by decide)⟩

/-- C10.  Error responses are never processed: on an intercepted URL whose
response has `response.ok` false, the response object is returned to the
host page unchanged and no `SaveBatch` event is dispatched. -/
theorem c10_error_responses_skipped (parsedPathname : Option String)
    (endpoints : List String) (requestId : String) (evs : List FetchEv)
    (hint : shouldInterceptUrl parsedPathname endpoints = true) :
    overrideFetchCall parsedPathname endpoints false requestId evs =
      { dispatchedSaveBatch := false, returned := .errorResponse } := by
  simp [overrideFetchCall, hint]

/-- Witness for C10 on a concrete intercepted URL. -/
theorem c10_error_responses_skipped_witness :
    shouldInterceptUrl (some "/api/best") ["best"] = true
    ∧ overrideFetchCall (some "/api/best") ["best"] false "1"
        [.feedReady "1" "body"] =
        { dispatchedSaveBatch := false, returned := .errorResponse } :=
  ⟨by decide,
    c10_error_responses_skipped (some "/api/best") ["best"] "1"
      [.feedReady "1" "body"] (by decide)⟩

/-!
## XHR interceptor

Source: `XhrInterceptor.overrideXHR` / `XhrInterceptor.setupResponseListener`
(xhr-interceptor.ts).

For an intercepted request, the overridden `onreadystatechange` at
`readyState === DONE` either (a) calls the saved original callback directly —
when the response body is empty, or when the interception body throws (the
throwing operations precede the handler-store; modelled as a single flag) —
or (b) stores `{xhr, callback}` in `eventHandlers[id]`, dispatches
`SaveBatch`, and returns without calling the callback.  Only the
`CustomFeedReady` listener installed by `setupResponseListener` later invokes
the stored callback (overriding `responseText`/`response` first) and deletes
the entry.  There is no timeout on this path.
-/

/-- Events seen by the XHR response listener. -/
inductive XhrEv where
  | feedReady (id : String) (body : String)
deriving Repr, DecidableEq

/-- Observable state of one intercepted XHR after DONE: whether
`eventHandlers[id]` still holds the entry, how many times the original
callback has been invoked, the overridden response (if any), and whether a
`SaveBatch` event was dispatched. -/
structure XhrState where
  handlerStored : Bool
  callbackCount : Nat
  responseOverride : Option String
  dispatchedSaveBatch : Bool
deriving Repr, DecidableEq

/-- The DONE branch of the overridden `onreadystatechange` for an intercepted
URL. -/
def xhrOnDone (responseData : String) (processingThrows : Bool) : XhrState :=
  if responseData = "" then
    { handlerStored := false, callbackCount := 1, responseOverride := none,
      dispatchedSaveBatch := false }
  else if processingThrows then
    { handlerStored := false, callbackCount := 1, responseOverride := none,
      dispatchedSaveBatch := false }
  else
    { handlerStored := true, callbackCount := 0, responseOverride := none,
      dispatchedSaveBatch := true }

/-- The `CustomFeedReady` listener: on a stored matching id it overrides the
response properties, invokes the saved callback, and deletes the entry;
otherwise (`eventHandlers[event.detail.id]` misses) it does nothing. -/
def xhrStep (requestId : String) (s : XhrState) : XhrEv → XhrState
  | .feedReady id body =>
    if s.handlerStored && id == requestId then
      { handlerStored := false, callbackCount := s.callbackCount + 1,
        responseOverride := some body,
        dispatchedSaveBatch := s.dispatchedSaveBatch }
    else s

/-- Full run of one intercepted XHR: DONE processing, then the delivered
`CustomFeedReady` events in order. -/
def runXhr (responseData : String) (processingThrows : Bool) (requestId : String)
    (evs : List XhrEv) : XhrState :=
  evs.foldl (xhrStep requestId) (xhrOnDone responseData processingThrows)

/-- Whether an event is correlated with the request. -/
def xhrMatches (requestId : String) : XhrEv → Bool
  | .feedReady id _ => id == requestId

theorem xhrStep_unstored (requestId : String) (s : XhrState)
    (hs : s.handlerStored = false) (evs : List XhrEv) :
    evs.foldl (xhrStep requestId) s = s := by
  induction evs with
  | nil => rfl
  | cons e rest ih =>
    have hstep : xhrStep requestId s e = s := by
      cases e with
      | feedReady id body => simp [xhrStep, hs]
    simp only [List.foldl_cons, hstep]
    exact ih

/-- C5 counterexample.  An intercepted XHR with a nonempty response whose
interception succeeds, and for which no correlated `CustomFeedReady` event is
ever delivered: the saved original `onreadystatechange` callback is never
invoked (the deferral to the response listener has no timeout), refuting the
claim that it is invoked in every execution. -/
theorem c5_callback_counterexample :
    (runXhr "listing-body" false "1" []).callbackCount = 0
    ∧ (runXhr "listing-body" false "1" []).dispatchedSaveBatch = true := by
  constructor <;> rfl

/-- C5 (amended).  The saved original callback is invoked exactly once when
the response body is empty, when interception throws, or when a correlated
`CustomFeedReady` event is delivered; when interception succeeds with a
nonempty body and no correlated event ever arrives, it is invoked zero
times. -/
theorem c5_callback_delivery (responseData : String) (processingThrows : Bool)
    (requestId : String) (evs : List XhrEv) :
    (runXhr responseData processingThrows requestId evs).callbackCount =
      (if responseData = "" then 1
       else if processingThrows then 1
       else if evs.any (xhrMatches requestId) then 1 else 0) := by
  by_cases hempty : responseData = ""
  · subst hempty
    rw [runXhr,
      show xhrOnDone "" processingThrows =
        { handlerStored := false, callbackCount := 1, responseOverride := none,
          dispatchedSaveBatch := false } from by simp [xhrOnDone],
      xhrStep_unstored requestId _ rfl]
    simp
  · by_cases hthrow : processingThrows = true
    · subst hthrow
      rw [runXhr,
        show xhrOnDone responseData true =
          { handlerStored := false, callbackCount := 1, responseOverride := none,
            dispatchedSaveBatch := false } from by simp [xhrOnDone, hempty],
        xhrStep_unstored requestId _ rfl]
      simp [hempty]
    · have hpt : processingThrows = false := by simpa using hthrow
      subst hpt
      rw [runXhr,
        show xhrOnDone responseData false =
          { handlerStored := true, callbackCount := 0, responseOverride := none,
            dispatchedSaveBatch := true } from by simp [xhrOnDone, hempty]]
      simp only [hempty, if_false, Bool.false_eq_true]
      induction evs with
      | nil => simp
      | cons e rest ih =>
        cases e with
        | feedReady id body =>
          by_cases hid : (id == requestId) = true
          · rw [List.foldl_cons,
              show xhrStep requestId
                { handlerStored := true, callbackCount := 0, responseOverride := none,
                  dispatchedSaveBatch := true } (.feedReady id body) =
                { handlerStored := false, callbackCount := 1,
                  responseOverride := some body, dispatchedSaveBatch := true } from by
                simp [xhrStep, hid],
              xhrStep_unstored requestId _ rfl]
            simp [xhrMatches, hid]
          · rw [List.foldl_cons,
              show xhrStep requestId
                { handlerStored := true, callbackCount := 0, responseOverride := none,
                  dispatchedSaveBatch := true } (.feedReady id body) =
                { handlerStored := true, callbackCount := 0, responseOverride := none,
                  dispatchedSaveBatch := true } from by simp [xhrStep, hid],
              ih]
            simp [xhrMatches, hid]

/-!
## WebSocket connector: pending-request correlation

Source: `WebSocketConnector.processRequest` / `WebSocketConnector.handleMessage`
(websocket-connector.ts).

State: the key set of `pendingRequests` (a `Map`) and the log of settlement
invocations — every call of a pending entry's `resolve`/`reject`, tagged with
its request id (`true` = resolve).  Events:

* `submit id connected` — `processRequest` stores the entry and either sends
  the message (connected) or rejects immediately **without removing the
  entry** (the not-connected HTTP fallback), in both cases scheduling the
  per-request timeout;
* `msgResponse id` / `msgError id` — `handleMessage` on a
  `processing_response`/`error` message: `pendingRequests.get(requestId)`
  settles and deletes the matching entry, and is a no-op on a miss;
* `timeoutFire id` — the per-request timeout: if the entry is still present,
  delete it and reject.
-/

inductive WsEv where
  | submit (id : String) (connected : Bool)
  | msgResponse (id : String)
  | msgError (id : String)
  | timeoutFire (id : String)
deriving Repr, DecidableEq

structure WsState where
  pending : List String
  settles : List (String × Bool)
deriving Repr, DecidableEq

def initWs : WsState := { pending := [], settles := [] }

def wsStep (s : WsState) : WsEv → WsState
  | .submit id connected =>
    match connected with
    | true =>
      { pending := if id ∈ s.pending then s.pending else s.pending ++ [id],
        settles := s.settles }
    | false =>
      { pending := if id ∈ s.pending then s.pending else s.pending ++ [id],
        settles := s.settles ++ [(id, false)] }
  | .msgResponse id =>
    if id ∈ s.pending then
      { pending := s.pending.erase id, settles := s.settles ++ [(id, true)] }
    else s
  | .msgError id =>
    if id ∈ s.pending then
      { pending := s.pending.erase id, settles := s.settles ++ [(id, false)] }
    else s
  | .timeoutFire id =>
    if id ∈ s.pending then
      { pending := s.pending.erase id, settles := s.settles ++ [(id, false)] }
    else s

def runWs (evs : List WsEv) : WsState := evs.foldl wsStep initWs

/-- Number of settlement invocations (resolve or reject calls) made on the
pending entry for `id`. -/
def settleCount (id : String) (s : WsState) : Nat :=
  (s.settles.filter (fun p => p.1 = id)).length

theorem settleCount_pending_irrel (id : String) (pending : List String)
    (s : WsState) :
    settleCount id { pending := pending, settles := s.settles } = settleCount id s :=
  rfl

theorem settleCount_append (id : String) (pending : List String)
    (settles : List (String × Bool)) (x : String) (b : Bool) :
    settleCount id ⟨pending, settles ++ [(x, b)]⟩ =
      settleCount id ⟨pending, settles⟩ + (if x = id then 1 else 0) := by
  simp only [settleCount, List.filter_append]
  by_cases hx : x = id <;> simp [hx]

/-- C4 counterexample.  A request submitted while the socket is not connected
is rejected immediately (for the HTTP fallback) but its entry is **not**
removed from `pendingRequests`, so the per-request timeout later rejects the
same entry a second time: the entry is settled twice, refuting
"settled exactly once — never twice". -/
theorem c4_double_settle_counterexample :
    settleCount "r" (runWs [.submit "r" false, .timeoutFire "r"]) = 2 := by decide

/-- The invariant carried across a connected submission's lifetime. -/
def wsInvariant (id : String) (s : WsState) : Prop :=
  (s.pending.count id = 1 ∧ settleCount id s = 0)
    ∨ (s.pending.count id = 0 ∧ settleCount id s = 1)

theorem wsInvariant_step (id : String) (s : WsState) (e : WsEv)
    (hsub : ∀ c, e ≠ .submit id c) (htim : e ≠ .timeoutFire id)
    (hinv : wsInvariant id s) : wsInvariant id (wsStep s e) := by
  cases e with
  | submit id' c =>
    have hne : id' ≠ id := by
      intro h
      exact hsub c (by rw [h])
    have hcount : (if id' ∈ s.pending then s.pending else s.pending ++ [id']).count id =
        s.pending.count id := by
      split
      · rfl
      · simp [List.count_append, List.count_singleton', hne]
    cases c with
    | true =>
      simpa only [wsStep, wsInvariant, settleCount, hcount] using hinv
    | false =>
      have hfil : (s.settles ++ [(id', false)]).filter (fun p => p.1 = id) =
          s.settles.filter (fun p => p.1 = id) := by
        simp [List.filter_append, hne]
      simpa only [wsStep, wsInvariant, settleCount, hcount, hfil] using hinv
  | msgResponse id' =>
    by_cases hmem : id' ∈ s.pending
    · simp only [wsStep, if_pos hmem]
      by_cases hid : id' = id
      · subst hid
        rcases hinv with ⟨h1, h2⟩ | ⟨h1, h2⟩
        · refine Or.inr ⟨?_, ?_⟩
          · rw [List.count_erase_self, h1]
          · rw [settleCount_append ..]
            simp [h2, settleCount] at h2 ⊢
            simpa [settleCount] using h2
        · exact absurd hmem (by simpa using List.count_eq_zero.mp h1)
      · rcases hinv with ⟨h1, h2⟩ | ⟨h1, h2⟩
        · refine Or.inl ⟨?_, ?_⟩
          · rw [List.count_erase_of_ne (Ne.symm hid), h1]
          · rw [settleCount_append, if_neg hid, settleCount_pending_irrel, h2]
        · refine Or.inr ⟨?_, ?_⟩
          · rw [List.count_erase_of_ne (Ne.symm hid), h1]
          · rw [settleCount_append, if_neg hid, settleCount_pending_irrel, h2]
    · simpa only [wsStep, if_neg hmem] using hinv
  | msgError id' =>
    by_cases hmem : id' ∈ s.pending
    · simp only [wsStep, if_pos hmem]
      by_cases hid : id' = id
      · subst hid
        rcases hinv with ⟨h1, h2⟩ | ⟨h1, h2⟩
        · refine Or.inr ⟨?_, ?_⟩
          · rw [List.count_erase_self, h1]
          · rw [settleCount_append ..]
            simpa [settleCount] using h2
        · exact absurd hmem (by simpa using List.count_eq_zero.mp h1)
      · rcases hinv with ⟨h1, h2⟩ | ⟨h1, h2⟩
        · refine Or.inl ⟨?_, ?_⟩
          · rw [List.count_erase_of_ne (Ne.symm hid), h1]
          · rw [settleCount_append, if_neg hid, settleCount_pending_irrel, h2]
        · refine Or.inr ⟨?_, ?_⟩
          · rw [List.count_erase_of_ne (Ne.symm hid), h1]
          · rw [settleCount_append, if_neg hid, settleCount_pending_irrel, h2]
    · simpa only [wsStep, if_neg hmem] using hinv
  | timeoutFire id' =>
    have hid : id' ≠ id := by
      intro h
      exact htim (by rw [h])
    by_cases hmem : id' ∈ s.pending
    · simp only [wsStep, if_pos hmem]
      rcases hinv with ⟨h1, h2⟩ | ⟨h1, h2⟩
      · refine Or.inl ⟨?_, ?_⟩
        · rw [List.count_erase_of_ne (Ne.symm hid), h1]
        · rw [settleCount_append, if_neg hid, settleCount_pending_irrel, h2]
      · refine Or.inr ⟨?_, ?_⟩
        · rw [List.count_erase_of_ne (Ne.symm hid), h1]
        · rw [settleCount_append, if_neg hid, settleCount_pending_irrel, h2]
    · simpa only [wsStep, if_neg hmem] using hinv

theorem wsInvariant_foldl (id : String) (ms : List WsEv) (s : WsState)
    (hms : ∀ e ∈ ms, (∀ c, e ≠ .submit id c) ∧ e ≠ .timeoutFire id)
    (hinv : wsInvariant id s) : wsInvariant id (ms.foldl wsStep s) := by
  induction ms generalizing s with
  | nil => exact hinv
  | cons e rest ih =>
    have he := hms e (by simp)
    exact ih (wsStep s e) (fun e' he' => hms e' (List.mem_cons_of_mem _ he'))
      (wsInvariant_step id s e he.1 he.2 hinv)

/-- C4 (amended).  Transport correlation for connected submissions is
exactly-once: a request submitted while the socket is connected, whose id is
not resubmitted and whose single per-request timeout fires at the end of the
window, is settled exactly once across the response/error/timeout paths —
whatever correlated or uncorrelated messages arrive in between.  Moreover an
inbound message tagged `x` never changes the settlement count of a different
id `y`, and a message whose id matches no pending entry is dropped (the state
is unchanged).  Only the not-connected fallback path violates exactly-once:
there the entry is rejected immediately without removal and the timeout
rejects it again (see the counterexample); the caller still observes a single
settlement because a promise ignores settlement calls after the first. -/
theorem c4_correlation_uniqueness :
    (∀ (id : String) (ms : List WsEv) (s₀ : WsState),
      id ∉ s₀.pending → settleCount id s₀ = 0 →
      (∀ e ∈ ms, (∀ c, e ≠ .submit id c) ∧ e ≠ .timeoutFire id) →
      settleCount id
        ((.submit id true :: (ms ++ [.timeoutFire id])).foldl wsStep s₀) = 1)
    ∧ (∀ (s : WsState) (x y : String), x ≠ y →
        settleCount y (wsStep s (.msgResponse x)) = settleCount y s
        ∧ settleCount y (wsStep s (.msgError x)) = settleCount y s
        ∧ settleCount y (wsStep s (.timeoutFire x)) = settleCount y s)
    ∧ (∀ (s : WsState) (x : String), x ∉ s.pending →
        wsStep s (.msgResponse x) = s ∧ wsStep s (.msgError x) = s) := by
  refine ⟨?_, ?_, ?_⟩
  · intro id ms s₀ hmem hcount hms
    have hsubmit : wsStep s₀ (.submit id true) =
        { pending := s₀.pending ++ [id], settles := s₀.settles } := by
      simp [wsStep, hmem]
    have hinv1 : wsInvariant id { pending := s₀.pending ++ [id], settles := s₀.settles } := by
      refine Or.inl ⟨?_, ?_⟩
      · rw [List.count_append]
        rw [List.count_eq_zero.mpr hmem]
        simp
      · simpa [settleCount] using hcount
    have hmid := wsInvariant_foldl id ms _ hms hinv1
    rw [List.foldl_cons, hsubmit, List.foldl_append]
    rcases hmid with ⟨h1, h2⟩ | ⟨h1, h2⟩
    · have hmem2 : id ∈ (ms.foldl wsStep { pending := s₀.pending ++ [id], settles := s₀.settles }).pending := by
        rw [← List.count_pos_iff]
        omega
      simp only [List.foldl_cons, List.foldl_nil, wsStep, if_pos hmem2]
      rw [settleCount_append, settleCount_pending_irrel, h2, if_pos rfl]
    · have hmem2 : id ∉ (ms.foldl wsStep { pending := s₀.pending ++ [id], settles := s₀.settles }).pending := by
        simpa using List.count_eq_zero.mp h1
      simp only [List.foldl_cons, List.foldl_nil, wsStep, if_neg hmem2]
      exact h2
  · intro s x y hxy
    refine ⟨?_, ?_, ?_⟩ <;>
      · simp only [wsStep]
        split
        · rw [settleCount_append, if_neg hxy, settleCount_pending_irrel,
            Nat.add_zero]
        · rfl
  · intro s x hx
    constructor <;> simp [wsStep, hx]

/-- Witness for the amended C4 at a concrete trace: request "a" submitted
connected; a response for "a", an uncorrelated response for "b" and a late
duplicate response for "a" arrive; the timeout then fires. -/
theorem c4_correlation_uniqueness_witness :
    ("a" ∉ (initWs).pending)
    ∧ settleCount "a"
        ((.submit "a" true ::
          ([.msgResponse "b", .msgResponse "a", .msgResponse "a"] ++
            [.timeoutFire "a"])).foldl wsStep initWs) = 1 :=
  ⟨by decide,
    c4_correlation_uniqueness.1 "a"
      [.msgResponse "b", .msgResponse "a", .msgResponse "a"] initWs
      (by decide) (by decide) (by decide)⟩

/-!
## Deferred image polling

Source: `processCartoonishImageMarker`, `startImagePolling`,
`pollForImageResult` (markers.ts, deferred-image section).

State: the `deferredImages` map, a multiset of in-flight polling loops (each
entry is one pending/running `pollForImageResult` invocation chain for that
key), the image element referenced by the tracked job(s) (its `src` and
whether the loading affordance is shown), and a counter of poll requests
posted across the bridge.  One `pollForImageResult` invocation together with
the outcome of the request it posts (response, error, or 5-second timeout —
each of which schedules the next poll) is one `pollForImageResult` step of
the model; `processCartoonishImageMarker` with a `DEFERRED` status shows the
loading state and calls `startImagePolling`, which unconditionally
(re)registers the tracking record and starts one more invocation chain.
-/

def hexDigit (n : Nat) : Char :=
  if n < 10 then Char.ofNat (48 + n) else Char.ofNat (87 + n)

/-- Embedding of `JSON.stringify` escaping for one character of a string literal. -/
def jsonEscapeChar (c : Char) : List Char :=
  if c = '"' then ['\\', '"']
  else if c = '\\' then ['\\', '\\']
  else if c = '\n' then ['\\', 'n']
  else if c = '\r' then ['\\', 'r']
  else if c = '\t' then ['\\', 't']
  else if c = '\x08' then ['\\', 'b']
  else if c = '\x0c' then ['\\', 'f']
  else if c.toNat < 0x20 then
    ['\\', 'u', '0', '0', hexDigit (c.toNat / 16), hexDigit (c.toNat % 16)]
  else [c]

def jsonQuote (s : String) : String :=
  "\"" ++ String.mk (s.toList.flatMap jsonEscapeChar) ++ "\""

/-- Embedding of `JSON.stringify` of an array of strings. -/
def jsonStringifyStrings (l : List String) : String :=
  "[" ++ String.intercalate "," (l.map jsonQuote) ++ "]"

/-- The tracking key: `` `${originalUrl}-${JSON.stringify(pollingFilters)}` ``. -/
def jobKey (originalUrl : String) (pollingFilters : List String) : String :=
  originalUrl ++ "-" ++ jsonStringifyStrings pollingFilters

/-- The parsed image-intervention config fields used by the deferred path. -/
structure CartoonishConfig where
  status : String
  bestFilterName : Option String := none
  filters : Option (List String) := none
  processedUrl : Option String := none
deriving Repr, DecidableEq

/-- Embedding of `config.best_filter_name ? [config.best_filter_name] : (config.filters || [])`
(computed identically in `processCartoonishImageMarker` and
`startImagePolling`). -/
def pollingFiltersOf (cfg : CartoonishConfig) : List String :=
  match cfg.bestFilterName with
  | some b => if b ≠ "" then [b] else cfg.filters.getD []
  | none => cfg.filters.getD []

/-- Embedding of `config?.api?.polling?.maxAttempts || DEFAULT_MAX_ATTEMPTS` with
`DEFAULT_MAX_ATTEMPTS = 20`. -/
def resolvedMaxPolls (maxAttempts : Nat) : Nat :=
  if maxAttempts = 0 then 20 else maxAttempts

/-- Embedding of `DeferredImageProcessing` (tracking record). -/
structure DeferredJob where
  originalUrl : String
  filters : List String
  pollCount : Nat
  maxPolls : Nat
deriving Repr, DecidableEq

/-- The image element: current `src` and whether the loading affordance
(spinner overlay plus processing class) is displayed. -/
structure ImgView where
  src : String
  loading : Bool
deriving Repr, DecidableEq

structure PollState where
  deferredImages : List (String × DeferredJob)
  loops : List String
  img : ImgView
  sends : Nat
deriving Repr, DecidableEq

/-- Outcome of the poll request posted by one `pollForImageResult`
invocation. -/
inductive PollResp where
  | completed (v : String)
  | notFound
  | errorResp
  | timeout
deriving Repr, DecidableEq

/-- Embedding of `processCartoonishImageMarker`: with status `DEFERRED`, show the loading
state, then (`startImagePolling`) store a fresh tracking record under the
job key — overwriting any existing record, there is no `has(key)` guard —
and start one more polling invocation chain.  With status `COMPLETED` and a
truthy `processedUrl`, swap the source immediately and remove the loading
state. -/
def processCartoonishImageMarker (st : PollState) (cfg : CartoonishConfig)
    (maxAttempts : Nat) : PollState :=
  if cfg.status = "DEFERRED" then
    { deferredImages := setAssoc st.deferredImages
        (jobKey st.img.src (pollingFiltersOf cfg))
        { originalUrl := st.img.src, filters := pollingFiltersOf cfg,
          pollCount := 0, maxPolls := resolvedMaxPolls maxAttempts },
      loops := jobKey st.img.src (pollingFiltersOf cfg) :: st.loops,
      img := { st.img with loading := true },
      sends := st.sends }
  else if cfg.status = "COMPLETED" then
    match cfg.processedUrl with
    | some u =>
      if u ≠ "" then { st with img := { src := u, loading := false } } else st
    | none => st
  else st

/-- One `pollForImageResult` invocation (consuming one in-flight loop entry
for `key`) together with the outcome of the request it posts.  An untracked
key returns silently; a job at its `maxPolls` bound expires (loading state
removed, record deleted, nothing sent); otherwise `pollCount` is incremented
and one poll request is sent — a `COMPLETED` result with a truthy processed
value terminates the job and swaps the image source, every other outcome
(`NOT FOUND`, error, timeout) schedules the next invocation of the same
chain. -/
def pollForImageResult (key : String) (resp : PollResp) (st : PollState) :
    PollState :=
  if st.loops.count key = 0 then st
  else
    match lookupAssoc st.deferredImages key with
    | none => { st with loops := st.loops.erase key }
    | some job =>
      if job.maxPolls ≤ job.pollCount then
        { deferredImages := eraseAssoc st.deferredImages key,
          loops := st.loops.erase key,
          img := { st.img with loading := false },
          sends := st.sends }
      else
        match resp with
        | .completed v =>
          if v ≠ "" then
            { deferredImages := eraseAssoc
                (setAssoc st.deferredImages key
                  { job with pollCount := job.pollCount + 1 }) key,
              loops := st.loops.erase key,
              img := { src := v, loading := false },
              sends := st.sends + 1 }
          else
            { deferredImages := setAssoc st.deferredImages key
                { job with pollCount := job.pollCount + 1 },
              loops := st.loops,
              img := st.img,
              sends := st.sends + 1 }
        | _ =>
          { deferredImages := setAssoc st.deferredImages key
              { job with pollCount := job.pollCount + 1 },
            loops := st.loops,
            img := st.img,
            sends := st.sends + 1 }

/-- The polling loop: fold the invocation/outcome steps for `key` over the
delivered outcomes. -/
def runPolls (key : String) (resps : List PollResp) (st : PollState) : PollState :=
  resps.foldl (fun s r => pollForImageResult key r s) st

/-- Remaining poll budget of the job tracked under `key`. -/
def jobCapacity (st : PollState) (key : String) : Nat :=
  match lookupAssoc st.deferredImages key with
  | some job => job.maxPolls - job.pollCount
  | none => 0

/-- JS `Map`s have unique keys; association lists reached through
`setAssoc`/`eraseAssoc` from `[]` keep this invariant. -/
def assocKeysNodup {α : Type} (l : List (String × α)) : Prop :=
  (l.map Prod.fst).Nodup

theorem lookupAssoc_setAssoc_self {α : Type} (l : List (String × α)) (k : String)
    (v : α) : lookupAssoc (setAssoc l k v) k = some v := by
  induction l with
  | nil => simp [setAssoc, lookupAssoc]
  | cons hd tl ih =>
    obtain ⟨k₀, v₀⟩ := hd
    by_cases hk : k₀ = k
    · simp [setAssoc, hk, lookupAssoc]
    · simp [setAssoc, hk, lookupAssoc, ih]

theorem mem_keys_setAssoc {α : Type} (l : List (String × α)) (k : String) (v : α)
    (x : String) (h : x ∈ (setAssoc l k v).map Prod.fst) :
    x ∈ l.map Prod.fst ∨ x = k := by
  induction l with
  | nil =>
    simp only [setAssoc, List.map_cons, List.map_nil, List.mem_singleton] at h
    exact Or.inr h
  | cons hd tl ih =>
    obtain ⟨k₀, v₀⟩ := hd
    by_cases hk : k₀ = k
    · subst hk
      simp only [setAssoc, if_true, reduceIte, List.map_cons, List.mem_cons] at h
      simp only [List.map_cons, List.mem_cons]
      rcases h with h | h
      · exact Or.inr h
      · exact Or.inl (Or.inr h)
    · simp only [setAssoc, if_neg hk, List.map_cons, List.mem_cons] at h
      simp only [List.map_cons, List.mem_cons]
      rcases h with h | h
      · exact Or.inl (Or.inl h)
      · rcases ih h with h' | h'
        · exact Or.inl (Or.inr h')
        · exact Or.inr h'

theorem assocKeysNodup_setAssoc {α : Type} (l : List (String × α)) (k : String)
    (v : α) (h : assocKeysNodup l) : assocKeysNodup (setAssoc l k v) := by
  induction l with
  | nil => simp [setAssoc, assocKeysNodup]
  | cons hd tl ih =>
    obtain ⟨k₀, v₀⟩ := hd
    simp only [assocKeysNodup, List.map_cons, List.nodup_cons] at h
    by_cases hk : k₀ = k
    · subst hk
      simpa [setAssoc, assocKeysNodup] using h
    · simp only [setAssoc, if_neg hk, assocKeysNodup, List.map_cons,
        List.nodup_cons]
      refine ⟨?_, ih h.2⟩
      intro hmem
      rcases mem_keys_setAssoc tl k v k₀ hmem with h' | h'
      · exact h.1 h'
      · exact hk h'

theorem lookupAssoc_of_not_mem_keys {α : Type} (l : List (String × α)) (k : String)
    (h : k ∉ l.map Prod.fst) : lookupAssoc l k = none := by
  induction l with
  | nil => rfl
  | cons hd tl ih =>
    obtain ⟨k₀, v₀⟩ := hd
    simp only [List.map_cons, List.mem_cons] at h
    push_neg at h
    simp [lookupAssoc, Ne.symm h.1, ih h.2]

theorem lookupAssoc_eraseAssoc_self {α : Type} (l : List (String × α)) (k : String)
    (h : assocKeysNodup l) : lookupAssoc (eraseAssoc l k) k = none := by
  induction l with
  | nil => rfl
  | cons hd tl ih =>
    obtain ⟨k₀, v₀⟩ := hd
    simp only [assocKeysNodup, List.map_cons, List.nodup_cons] at h
    by_cases hk : k₀ = k
    · subst hk
      simp only [eraseAssoc, if_true, reduceIte]
      exact lookupAssoc_of_not_mem_keys tl k₀ h.1
    · simp [eraseAssoc, hk, lookupAssoc, ih h.2]

theorem mem_keys_eraseAssoc {α : Type} (l : List (String × α)) (k : String)
    (x : String) (h : x ∈ (eraseAssoc l k).map Prod.fst) : x ∈ l.map Prod.fst := by
  induction l with
  | nil =>
    simp only [eraseAssoc, List.map_nil] at h
    exact absurd h (List.not_mem_nil x)
  | cons hd tl ih =>
    obtain ⟨k₀, v₀⟩ := hd
    by_cases hk : k₀ = k
    · subst hk
      simp only [eraseAssoc, if_true, reduceIte] at h
      simp only [List.map_cons, List.mem_cons]
      exact Or.inr h
    · simp only [eraseAssoc, if_neg hk, List.map_cons, List.mem_cons] at h
      simp only [List.map_cons, List.mem_cons]
      rcases h with h | h
      · exact Or.inl h
      · exact Or.inr (ih h)

theorem assocKeysNodup_eraseAssoc {α : Type} (l : List (String × α)) (k : String)
    (h : assocKeysNodup l) : assocKeysNodup (eraseAssoc l k) := by
  induction l with
  | nil => exact h
  | cons hd tl ih =>
    obtain ⟨k₀, v₀⟩ := hd
    simp only [assocKeysNodup, List.map_cons, List.nodup_cons] at h
    by_cases hk : k₀ = k
    · subst hk
      simp only [eraseAssoc, if_true, reduceIte, assocKeysNodup]
      exact h.2
    · simp only [eraseAssoc, if_neg hk, assocKeysNodup, List.map_cons,
        List.nodup_cons]
      exact ⟨fun hmem => h.1 (mem_keys_eraseAssoc tl k k₀ hmem), ih h.2⟩

/-- A deferred-image scenario config: `{status: "DEFERRED", filters: ["f"]}`. -/
def dsCfg : CartoonishConfig where
  status := "DEFERRED"
  filters := some ["f"]

/-- Initial state: one untracked image at `u.png`, nothing in flight. -/
def dsSt0 : PollState where
  deferredImages := []
  loops := []
  img := { src := "u.png", loading := false }
  sends := 0

/-- The scenario's job key. -/
def dsKey : String := jobKey "u.png" ["f"]

/-- C6 counterexample.  After a first DEFERRED `processCartoonishImageMarker`
call the key is tracked in `deferredImages` and one polling loop is in
flight; a second call for the same key (same image source, same filters)
starts a second parallel polling loop — the in-flight count for the key
becomes 2, refuting "at most one polling loop is in flight at any time". -/
theorem c6_second_loop_counterexample :
    lookupAssoc (processCartoonishImageMarker dsSt0 dsCfg 3).deferredImages dsKey =
        some { originalUrl := "u.png", filters := ["f"], pollCount := 0, maxPolls := 3 }
    ∧ (processCartoonishImageMarker dsSt0 dsCfg 3).loops.count dsKey = 1
    ∧ (processCartoonishImageMarker
        (processCartoonishImageMarker dsSt0 dsCfg 3) dsCfg 3).loops.count dsKey = 2 := by
  decide

/-- C6 (amended).  `processCartoonishImageMarker` with a DEFERRED config has
no `has(key)` guard: every such call unconditionally overwrites the tracking
record under the job key (resetting `pollCount` to 0) and starts one more
polling loop, so a repeated call for an already-tracked key yields a second
parallel loop (both loops then share the single overwritten record). -/
theorem c6_deferred_call_always_starts_loop (st : PollState)
    (cfg : CartoonishConfig) (maxAttempts : Nat)
    (hdef : cfg.status = "DEFERRED") :
    (processCartoonishImageMarker st cfg maxAttempts).loops =
        jobKey st.img.src (pollingFiltersOf cfg) :: st.loops
    ∧ (processCartoonishImageMarker st cfg maxAttempts).deferredImages =
        setAssoc st.deferredImages (jobKey st.img.src (pollingFiltersOf cfg))
          { originalUrl := st.img.src, filters := pollingFiltersOf cfg,
            pollCount := 0, maxPolls := resolvedMaxPolls maxAttempts } := by
  constructor <;> simp [processCartoonishImageMarker, hdef]

/-- Witness for the amended C6 at the concrete scenario. -/
theorem c6_deferred_call_always_starts_loop_witness :
    dsCfg.status = "DEFERRED"
    ∧ (processCartoonishImageMarker dsSt0 dsCfg 3).loops =
        jobKey dsSt0.img.src (pollingFiltersOf dsCfg) :: dsSt0.loops :=
  ⟨rfl, (c6_deferred_call_always_starts_loop dsSt0 dsCfg 3 rfl).1⟩

theorem runPolls_no_loops (key : String) (resps : List PollResp) (st : PollState)
    (h : st.loops = []) : runPolls key resps st = st := by
  induction resps with
  | nil => rfl
  | cons r rest ih =>
    have hstep : pollForImageResult key r st = st := by
      simp [pollForImageResult, h]
    simp only [runPolls, List.foldl_cons, hstep]
    exact ih

theorem pollSends_bounded (key : String) (resps : List PollResp) (st : PollState)
    (hnd : assocKeysNodup st.deferredImages) :
    (runPolls key resps st).sends ≤ st.sends + jobCapacity st key := by
  induction resps generalizing st with
  | nil => exact Nat.le_add_right _ _
  | cons r rest ih =>
    simp only [runPolls, List.foldl_cons]
    by_cases hcnt : st.loops.count key = 0
    · rw [show pollForImageResult key r st = st from by
        simp [pollForImageResult, hcnt]]
      exact ih st hnd
    · cases hlook : lookupAssoc st.deferredImages key with
      | none =>
        rw [show pollForImageResult key r st = { st with loops := st.loops.erase key }
          from by simp [pollForImageResult, hcnt, hlook]]
        have hrec := ih { st with loops := st.loops.erase key } hnd
        simpa [runPolls, jobCapacity, hlook] using hrec
      | some job =>
        by_cases hexp : job.maxPolls ≤ job.pollCount
        · rw [show pollForImageResult key r st =
              { deferredImages := eraseAssoc st.deferredImages key,
                loops := st.loops.erase key,
                img := { st.img with loading := false }, sends := st.sends }
            from by simp [pollForImageResult, hcnt, hlook, hexp]]
          have hnd' : assocKeysNodup (eraseAssoc st.deferredImages key) :=
            assocKeysNodup_eraseAssoc _ _ hnd
          refine le_trans (ih _ hnd') ?_
          have hcap : jobCapacity
              { deferredImages := eraseAssoc st.deferredImages key,
                loops := st.loops.erase key,
                img := { st.img with loading := false }, sends := st.sends } key = 0 := by
            simp [jobCapacity, lookupAssoc_eraseAssoc_self _ _ hnd]
          rw [hcap]
          exact Nat.le_add_right _ _
        · have hlt : job.pollCount < job.maxPolls := Nat.lt_of_not_le hexp
          have hcap : jobCapacity st key = job.maxPolls - job.pollCount := by
            simp [jobCapacity, hlook]
          cases r with
          | completed v =>
            by_cases hv : v ≠ ""
            · rw [show pollForImageResult key (.completed v) st =
                  { deferredImages := eraseAssoc
                      (setAssoc st.deferredImages key
                        { job with pollCount := job.pollCount + 1 }) key,
                    loops := st.loops.erase key,
                    img := { src := v, loading := false }, sends := st.sends + 1 }
                from by simp [pollForImageResult, hcnt, hlook, hexp, hv]]
              have hnd' : assocKeysNodup (eraseAssoc
                  (setAssoc st.deferredImages key
                    { job with pollCount := job.pollCount + 1 }) key) :=
                assocKeysNodup_eraseAssoc _ _ (assocKeysNodup_setAssoc _ _ _ hnd)
              refine le_trans (ih _ hnd') ?_
              have hcap' : jobCapacity
                  { deferredImages := eraseAssoc
                      (setAssoc st.deferredImages key
                        { job with pollCount := job.pollCount + 1 }) key,
                    loops := st.loops.erase key,
                    img := { src := v, loading := false },
                    sends := st.sends + 1 } key = 0 := by
                simp [jobCapacity, lookupAssoc_eraseAssoc_self _ _
                  (assocKeysNodup_setAssoc _ _ _ hnd)]
              rw [hcap', hcap]
              show st.sends + 1 + 0 ≤ st.sends + (job.maxPolls - job.pollCount)
              omega
            · rw [show pollForImageResult key (.completed v) st =
                  { deferredImages := setAssoc st.deferredImages key
                      { job with pollCount := job.pollCount + 1 },
                    loops := st.loops, img := st.img, sends := st.sends + 1 }
                from by simp [pollForImageResult, hcnt, hlook, hexp, hv]]
              have hnd' : assocKeysNodup (setAssoc st.deferredImages key
                  { job with pollCount := job.pollCount + 1 }) :=
                assocKeysNodup_setAssoc _ _ _ hnd
              refine le_trans (ih _ hnd') ?_
              have hcap' : jobCapacity
                  { deferredImages := setAssoc st.deferredImages key
                      { job with pollCount := job.pollCount + 1 },
                    loops := st.loops, img := st.img, sends := st.sends + 1 } key =
                  job.maxPolls - (job.pollCount + 1) := by
                simp [jobCapacity, lookupAssoc_setAssoc_self]
              rw [hcap', hcap]
              show st.sends + 1 + (job.maxPolls - (job.pollCount + 1)) ≤
                st.sends + (job.maxPolls - job.pollCount)
              omega
          | notFound =>
            rw [show pollForImageResult key .notFound st =
                { deferredImages := setAssoc st.deferredImages key
                    { job with pollCount := job.pollCount + 1 },
                  loops := st.loops, img := st.img, sends := st.sends + 1 }
              from by simp [pollForImageResult, hcnt, hlook, hexp]]
            have hnd' : assocKeysNodup (setAssoc st.deferredImages key
                { job with pollCount := job.pollCount + 1 }) :=
              assocKeysNodup_setAssoc _ _ _ hnd
            refine le_trans (ih _ hnd') ?_
            have hcap' : jobCapacity
                { deferredImages := setAssoc st.deferredImages key
                    { job with pollCount := job.pollCount + 1 },
                  loops := st.loops, img := st.img, sends := st.sends + 1 } key =
                job.maxPolls - (job.pollCount + 1) := by
              simp [jobCapacity, lookupAssoc_setAssoc_self]
            rw [hcap', hcap]
            show st.sends + 1 + (job.maxPolls - (job.pollCount + 1)) ≤
              st.sends + (job.maxPolls - job.pollCount)
            omega
          | errorResp =>
            rw [show pollForImageResult key .errorResp st =
                { deferredImages := setAssoc st.deferredImages key
                    { job with pollCount := job.pollCount + 1 },
                  loops := st.loops, img := st.img, sends := st.sends + 1 }
              from by simp [pollForImageResult, hcnt, hlook, hexp]]
            have hnd' : assocKeysNodup (setAssoc st.deferredImages key
                { job with pollCount := job.pollCount + 1 }) :=
              assocKeysNodup_setAssoc _ _ _ hnd
            refine le_trans (ih _ hnd') ?_
            have hcap' : jobCapacity
                { deferredImages := setAssoc st.deferredImages key
                    { job with pollCount := job.pollCount + 1 },
                  loops := st.loops, img := st.img, sends := st.sends + 1 } key =
                job.maxPolls - (job.pollCount + 1) := by
              simp [jobCapacity, lookupAssoc_setAssoc_self]
            rw [hcap', hcap]
            show st.sends + 1 + (job.maxPolls - (job.pollCount + 1)) ≤
              st.sends + (job.maxPolls - job.pollCount)
            omega
          | timeout =>
            rw [show pollForImageResult key .timeout st =
                { deferredImages := setAssoc st.deferredImages key
                    { job with pollCount := job.pollCount + 1 },
                  loops := st.loops, img := st.img, sends := st.sends + 1 }
              from by simp [pollForImageResult, hcnt, hlook, hexp]]
            have hnd' : assocKeysNodup (setAssoc st.deferredImages key
                { job with pollCount := job.pollCount + 1 }) :=
              assocKeysNodup_setAssoc _ _ _ hnd
            refine le_trans (ih _ hnd') ?_
            have hcap' : jobCapacity
                { deferredImages := setAssoc st.deferredImages key
                    { job with pollCount := job.pollCount + 1 },
                  loops := st.loops, img := st.img, sends := st.sends + 1 } key =
                job.maxPolls - (job.pollCount + 1) := by
              simp [jobCapacity, lookupAssoc_setAssoc_self]
            rw [hcap', hcap]
            show st.sends + 1 + (job.maxPolls - (job.pollCount + 1)) ≤
              st.sends + (job.maxPolls - job.pollCount)
            omega

/-- C7.  Deferred image expiry: starting a deferred job with
`maxPolls = 3` and receiving `NOT FOUND` on all three poll attempts, the
fourth (scheduled) invocation expires the job — the loading affordance is
removed, the job is deleted from the tracking map, the image keeps its
original source, exactly 3 poll requests were sent, and no invocation chain
remains, so no further poll is ever sent no matter what else is delivered
(`extra`).  In general (second conjunct) a run of the polling loop never
sends more than the tracked job's remaining `maxPolls - pollCount` budget. -/
theorem c7_deferred_expiry :
    (∀ extra : List PollResp,
      runPolls dsKey ([.notFound, .notFound, .notFound, .notFound] ++ extra)
        (processCartoonishImageMarker dsSt0 dsCfg 3) =
        { deferredImages := [], loops := [],
          img := { src := "u.png", loading := false }, sends := 3 })
    ∧ (∀ (key : String) (resps : List PollResp) (st : PollState),
        assocKeysNodup st.deferredImages →
        (runPolls key resps st).sends ≤ st.sends + jobCapacity st key) := by
  constructor
  · intro extra
    have h4 : List.foldl (fun s r => pollForImageResult dsKey r s)
        (processCartoonishImageMarker dsSt0 dsCfg 3)
        [.notFound, .notFound, .notFound, .notFound] =
        ({ deferredImages := [], loops := [],
           img := { src := "u.png", loading := false }, sends := 3 } : PollState) := by
      decide
    simp only [runPolls, List.foldl_append, h4]
    exact runPolls_no_loops dsKey extra _ rfl
  · exact fun key resps st hnd => pollSends_bounded key resps st hnd

/-- Witness for C7's general bound at the concrete scenario start state
(whose key set is duplicate-free): five delivered outcomes send at most the
remaining budget of 3. -/
theorem c7_deferred_expiry_witness :
    assocKeysNodup (processCartoonishImageMarker dsSt0 dsCfg 3).deferredImages
    ∧ (runPolls dsKey
        [.notFound, .notFound, .notFound, .notFound, .notFound]
        (processCartoonishImageMarker dsSt0 dsCfg 3)).sends ≤
        (processCartoonishImageMarker dsSt0 dsCfg 3).sends +
          jobCapacity (processCartoonishImageMarker dsSt0 dsCfg 3) dsKey :=
  ⟨by
    show ((processCartoonishImageMarker dsSt0 dsCfg 3).deferredImages.map
      Prod.fst).Nodup
    decide,
    c7_deferred_expiry.2 dsKey
      [.notFound, .notFound, .notFound, .notFound, .notFound]
      (processCartoonishImageMarker dsSt0 dsCfg 3)
      (by
        show ((processCartoonishImageMarker dsSt0 dsCfg 3).deferredImages.map
          Prod.fst).Nodup
        decide)⟩

/-!
## Image overlay application

Source: `applyOverlayToImage` and `applyBlurToImage` (markers.ts).

DOM model: the positioning container (`div.diymod-image-container`) sits at
viewport position `(originX, originY)`; its overlay children are absolutely
positioned with style `left/top/width/height` in pixels.  Under standard CSS
layout (no borders, no transforms), `getBoundingClientRect()` of such a child
therefore reports `left = originX + styleLeft`, `top = originY + styleTop`,
and the style width/height.  The coordinates handed to both functions come
from `overlayInfo.split('_').map(Number)` of the joined box values; for the
integer coordinates considered here that round trip is the identity, so the
model takes the four numbers directly. -/

inductive OverlayKind where
  | overlayImg
  | blurDiv
deriving Repr, DecidableEq, BEq

/-- An overlay child of the container with its style coordinates. -/
structure OverlayElem where
  kind : OverlayKind
  left : Int
  top : Int
  width : Int
  height : Int
deriving Repr, DecidableEq, BEq

structure ImageContainer where
  originX : Int
  originY : Int
  overlays : List OverlayElem
deriving Repr, DecidableEq

/-- Embedding of `applyOverlayToImage`: the duplicate check looks for an existing overlay
`<img>` whose **style** `left/top/width/height` equal the requested ones, and
only appends a new overlay image when none is found. -/
def applyOverlayToImage (c : ImageContainer) (left top width height : Int) :
    ImageContainer :=
  if c.overlays.any (fun o =>
      o.kind == OverlayKind.overlayImg && o.left == left && o.top == top &&
        o.width == width && o.height == height) then c
  else
    { c with overlays := c.overlays ++
        [{ kind := .overlayImg, left := left, top := top, width := width,
           height := height }] }

/-- Embedding of `applyBlurToImage`: the duplicate check compares each existing
`.diymod-blur-overlay`'s `getBoundingClientRect()` — viewport coordinates —
against the requested **style** coordinates, and appends a new blur overlay
when no rect matches. -/
def applyBlurToImage (c : ImageContainer) (left top width height : Int) :
    ImageContainer :=
  if c.overlays.any (fun o =>
      o.kind == OverlayKind.blurDiv && (c.originX + o.left) == left &&
        (c.originY + o.top) == top && o.width == width && o.height == height) then c
  else
    { c with overlays := c.overlays ++
        [{ kind := .blurDiv, left := left, top := top, width := width,
           height := height }] }

/-- Number of overlay elements of the given kind at the given style
coordinates inside the container. -/
def overlayCountAt (c : ImageContainer) (kind : OverlayKind)
    (left top width height : Int) : Nat :=
  (c.overlays.filter (fun o =>
    o == ({ kind := kind, left := left, top := top, width := width,
            height := height } : OverlayElem))).length

/-- C8.  With the positioning container at viewport position (10, 0) — any
position other than the viewport origin — applying the overlay handler twice
with identical coordinates leaves exactly one overlay image (its duplicate
check compares style values), but applying the blur handler twice with
identical coordinates creates **two** blur overlays: its duplicate check
compares `getBoundingClientRect()` viewport coordinates (15, 5) with the
style coordinates (5, 5), finds no match, and appends again — contradicting
the claim and the source's own comment "Avoid duplicate blur overlays".
Only with the container exactly at the viewport origin is the second blur
application suppressed. -/
theorem c8_overlay_idempotence_bug :
    overlayCountAt
      (applyOverlayToImage
        (applyOverlayToImage ⟨10, 0, []⟩ 5 5 20 20) 5 5 20 20)
      .overlayImg 5 5 20 20 = 1
    ∧ overlayCountAt
        (applyBlurToImage (applyBlurToImage ⟨0, 0, []⟩ 5 5 20 20) 5 5 20 20)
        .blurDiv 5 5 20 20 = 1
    ∧ overlayCountAt
        (applyBlurToImage (applyBlurToImage ⟨10, 0, []⟩ 5 5 20 20) 5 5 20 20)
        .blurDiv 5 5 20 20 = 2 := by
  decide

/-!
## Intervention-attribute lifecycle

Source: `processMarkedImage` (markers.ts).

The input models `imgElement.getAttribute(DIY_IMG_ATTR)` followed by
`JSON.parse`: `none` = attribute absent (early return); `some none` =
attribute present but `JSON.parse` threw (the catch is hit before the
removal code runs, so the attribute stays); `some (some cfg)` = parsed
config.  `configData.type` on a parsed `null` throws to the same catch. -/

structure ImageMarkerResult where
  attrRemoved : Bool
  processedFlagSet : Bool
  deferredJobStarted : Bool
deriving Repr, DecidableEq

/-- Whether `configData.type === lit` (strict equality against a string
literal). -/
def cfgTypeIs (cfg : Json) (lit : String) : Bool :=
  match getField cfg "type" with
  | some (.str s) => s == lit
  | _ => false

/-- Whether `configData.status === 'DEFERRED'`. -/
def cfgStatusDeferred (cfg : Json) : Bool :=
  match getField cfg "status" with
  | some (.str s) => s == "DEFERRED"
  | _ => false

/-- Embedding of `processMarkedImage`: dispatch on `configData.type`, then remove the
attribute (and set `data-diy-mod-processed`) iff
`configData.type !== 'cartoonish' || (configData.type === 'cartoonish' &&
configData.status !== 'DEFERRED')`.  A deferred job is started by the
cartoonish handler whenever the type is `cartoonish` or `edit` and the
status is `DEFERRED`. -/
def processMarkedImage (attr : Option (Option Json)) : ImageMarkerResult :=
  match attr with
  | none =>
    { attrRemoved := false, processedFlagSet := false, deferredJobStarted := false }
  | some none =>
    { attrRemoved := false, processedFlagSet := false, deferredJobStarted := false }
  | some (some cfg) =>
    match cfg with
    | .null =>
      { attrRemoved := false, processedFlagSet := false,
        deferredJobStarted := false }
    | _ =>
      let removal :=
        !(cfgTypeIs cfg "cartoonish") ||
          (cfgTypeIs cfg "cartoonish" && !(cfgStatusDeferred cfg))
      { attrRemoved := removal, processedFlagSet := removal,
        deferredJobStarted :=
          (cfgTypeIs cfg "cartoonish" || cfgTypeIs cfg "edit") &&
            cfgStatusDeferred cfg }

/-- C9.  The attribute lifecycle.  For a `cartoonish` config with status
`DEFERRED` the attribute is kept, and for a non-deferred config it is
removed — but for an `edit` config with status `DEFERRED` the code removes
the attribute even though it starts a deferred job, because the removal
condition `configData.type !== 'cartoonish' || ...` only exempts the literal
type `'cartoonish'`: this contradicts the source's own comment ("Only remove
the attribute for non-deferred processing ... for deferred processing we'll
remove it when complete") and the claim. -/
theorem c9_attribute_lifecycle_bug :
    (processMarkedImage (some (some (.obj [("type", .str "edit"),
        ("status", .str "DEFERRED")])))).deferredJobStarted = true
    ∧ (processMarkedImage (some (some (.obj [("type", .str "edit"),
        ("status", .str "DEFERRED")])))).attrRemoved = true
    ∧ (processMarkedImage (some (some (.obj [("type", .str "cartoonish"),
        ("status", .str "DEFERRED")])))).attrRemoved = false
    ∧ (processMarkedImage (some (some (.obj [("type", .str "overlay"),
        ("coordinates", .arr [])])))).attrRemoved = true
    ∧ (processMarkedImage (some none)).attrRemoved = false := by
  refine ⟨rfl, rfl, rfl, rfl, rfl⟩

end DIYMod
